import Mathlib

/-!
Shallow embedding of the `mmm` markdown engine (TypeScript) and verification
of the frozen claims.  JavaScript strings are modelled as `List Char`;
JS `undefined` / `-1` results are modelled with `Option`; thrown exceptions
are modelled with `Except String`.
-/

set_option maxHeartbeats 1000000

abbrev Str := List Char

/-- JS whitespace test (`\s` for the ASCII range used by this code base). -/
def jsWs (c : Char) : Bool :=
  c == ' ' || c == '\t' || c == '\n' || c == '\r' || c == '\x0b' || c == '\x0c'

/-- JS `String.prototype.trim`. -/
def jsTrim (s : Str) : Str :=
  ((s.dropWhile jsWs).reverse.dropWhile jsWs).reverse

/-- JS `s.startsWith(pat)`. -/
def strStarts : Str → Str → Bool
  | _, [] => true
  | [], _ :: _ => false
  | c :: cs, p :: ps => c == p && strStarts cs ps

/-- Scan a suffix for the first index (absolute position `j`) where `pat` occurs. -/
def idxOfAux (pat : Str) : Str → Nat → Option Nat
  | [], j => if pat.isEmpty then some j else none
  | c :: cs, j => if strStarts (c :: cs) pat then some j else idxOfAux pat cs (j + 1)

/-- JS `s.indexOf(pat, i)` (`none` for `-1`). -/
def idxOfFrom (s pat : Str) (i : Nat) : Option Nat :=
  idxOfAux pat (s.drop i) i

/-- JS `s.includes(pat)`. -/
def strIncludes (s pat : Str) : Bool :=
  (idxOfFrom s pat 0).isSome

/-- JS `s.slice(a, b)`. -/
def strSlice (s : Str) (a b : Nat) : Str :=
  (s.drop a).take (b - a)

theorem takeWhileLen (p : Char → Bool) (l : List Char) :
    (l.takeWhile p).length ≤ l.length := by
  have h := List.takeWhile_prefix p (l := l)
  exact h.length_le

theorem strStarts_length {s pat : Str} (h : strStarts s pat = true) :
    pat.length ≤ s.length := by
  induction pat generalizing s with
  | nil => simp
  | cons p ps ih =>
    cases s with
    | nil => simp [strStarts] at h
    | cons c cs =>
      simp only [strStarts, Bool.and_eq_true] at h
      simpa using Nat.succ_le_succ (ih h.2)

theorem idxOfAux_spec {pat : Str} (hp : pat ≠ []) :
    ∀ {t : Str} {j j' : Nat}, idxOfAux pat t j = some j' →
      j ≤ j' ∧ j' - j < t.length := by
  intro t
  induction t with
  | nil => intro j j' h; simp [idxOfAux, hp] at h
  | cons c cs ih =>
    intro j j' h
    by_cases hs : strStarts (c :: cs) pat = true
    · have hj : j = j' := by
        have h2 : some j = some j' := by simpa [idxOfAux, hs] using h
        injection h2
      refine ⟨by omega, ?_⟩
      simp only [List.length_cons]
      omega
    · simp [idxOfAux, hs] at h
      rcases ih h with ⟨h1, h2⟩
      constructor
      · omega
      · simp only [List.length_cons]; omega

theorem idxOfFrom_ge {s pat : Str} {i j : Nat} (hp : pat ≠ [])
    (h : idxOfFrom s pat i = some j) : i ≤ j :=
  (idxOfAux_spec hp h).1

/-- The emoji shortcode → glyph lookup (`EmojiManager.mappings`). -/
abbrev EmojiMap := List (Str × Str)

def hasEmoji (em : EmojiMap) (k : Str) : Bool :=
  (em.lookup k).isSome

def getEmoji (em : EmojiMap) (k : Str) : Option Str :=
  em.lookup k

mutual

/-- A token's metadata value (JS object values used by the tokenizer); the
`toks` case is used for `hrefTokens`, which stores tokens inside metadata. -/
inductive MetaVal : Type where
  | str : Str → MetaVal
  | num : Int → MetaVal
  | bool : Bool → MetaVal
  | toks : List Token → MetaVal
  | strs : List String → MetaVal

/-- The shared token tree (`interface Token`): type, optional content,
optional children, optional metadata record. -/
inductive Token : Type where
  | mk : String → Option Str → Option (List Token) →
      Option (List (String × MetaVal)) → Token

end

def Token.type : Token → String
  | .mk t _ _ _ => t

def Token.content : Token → Option Str
  | .mk _ c _ _ => c

def Token.children : Token → Option (List Token)
  | .mk _ _ ch _ => ch

def Token.metadata : Token → Option (List (String × MetaVal))
  | .mk _ _ _ m => m

def textTok (s : Str) : Token := .mk "text" (some s) none none

def cursorTok : Token := .mk "cursor" none none none

/-- `parseCursorOnlyContent` main loop (scans for `@!`). -/
def pcocLoop (remaining : Str) (tokens : List Token) (i : Nat) : List Token :=
  if hlt : i < remaining.length then
    match hidx : idxOfFrom remaining ['@', '!'] i with
    | none =>
        tokens ++ (if i < remaining.length then [textTok (remaining.drop i)] else [])
    | some ci =>
        have hge : i ≤ ci := idxOfFrom_ge (by simp) hidx
        let tokens' := tokens ++
          (if ci > i then [textTok ((remaining.drop i).take (ci - i))] else [])
        pcocLoop remaining (tokens' ++ [cursorTok]) (ci + 2)
  else tokens
termination_by remaining.length - i
decreasing_by omega

def pcocKeep (t : Token) : Bool :=
  (match t.content with | some c => !c.isEmpty | none => false) || t.type == "cursor"

/-- Helper function to parse cursors in content-only contexts
(source: `parseCursorOnlyContent`). -/
def parseCursorOnlyContent (text : Str) : List Token :=
  (pcocLoop text [] 0).filter pcocKeep

/-- Match `\(([^)\s]+)(?:\s+"([^"]*)")?\)` at the front of `s`
(`allowEmptySrc` selects the `[^)\s]*` link variant).
Returns `(src, title, n)` where the whole match consumes `n + 2` characters. -/
def parenTail (allowEmptySrc : Bool) (s : Str) : Option (Str × Str × Nat) :=
  if s.head? = some '(' then
    let r := s.drop 1
    let src := r.takeWhile (fun c => !jsWs c && c != ')')
    if !allowEmptySrc && src.isEmpty then none
    else
      let a := r.drop src.length
      if a.head? = some ')' then some (src, [], src.length)
      else if (a.head?.map jsWs).getD false then
        let w := (a.takeWhile jsWs).length
        let b := a.drop w
        if b.head? = some '"' then
          let r2 := b.drop 1
          let title := r2.takeWhile (fun c => c != '"')
          let e := r2.drop title.length
          if e.head? = some '"' && (e.drop 1).head? = some ')' then
            some (src, title, src.length + w + title.length + 2)
          else none
        else none
      else none
  else none

/-- The lazy `(.*?)\]\(...\)` part shared by the image and link regexes:
try each `]` position `k` in `t` in increasing order, aborting at a line
terminator (which `.` cannot match).  On success `(k, src, title, n)` means
the alt/label text is `t.take k` and the bracketed tail consumed
`k + 1 + (n + 2)` characters of `t`. -/
def bracketScan (allowEmptySrc : Bool) (t : Str) (k : Nat) :
    Option (Nat × Str × Str × Nat) :=
  if hk : k < t.length then
    match t.get? k with
    | some ']' =>
        (match parenTail allowEmptySrc (t.drop (k + 1)) with
         | some (src, title, pc) => some (k, src, title, pc)
         | none => bracketScan allowEmptySrc t (k + 1))
    | some '\n' => none
    | some '\r' => none
    | some _ => bracketScan allowEmptySrc t (k + 1)
    | none => none
  else none
termination_by t.length - k
decreasing_by all_goals omega

/-- Match `/^<image-card\s+alt="([^"]*?)"\s+src="([^"]*?)"\s*><\/image-card>/`.
Returns `(w, n, src, c)` where `w` is the first whitespace-run length, the alt
text is the `n` characters starting at offset `16 + w`, and the whole match
consumes `16 + w + n + c` characters. -/
def imageCardMatch (s : Str) : Option (Nat × Nat × Str × Nat) :=
  if strStarts s ("<image-card".data) then
    let r0 := s.drop 11
    let w1 := (r0.takeWhile jsWs).length
    if w1 == 0 then none
    else
      let r1 := r0.drop w1
      if strStarts r1 ("alt=".data ++ ['"']) then
        let r2 := r1.drop 5
        let alt := r2.takeWhile (fun c => c != '"')
        let r3 := r2.drop alt.length
        if r3.head? = some '"' then
          let r4 := r3.drop 1
          let w2 := (r4.takeWhile jsWs).length
          if w2 == 0 then none
          else
            let r5 := r4.drop w2
            if strStarts r5 ("src=".data ++ ['"']) then
              let r6 := r5.drop 5
              let src := r6.takeWhile (fun c => c != '"')
              let r7 := r6.drop src.length
              if r7.head? = some '"' then
                let r8 := r7.drop 1
                let w3 := (r8.takeWhile jsWs).length
                if strStarts (r8.drop w3) ("></image-card>".data) then
                  some (w1, alt.length, src, 1 + w2 + 5 + src.length + 1 + w3 + 14)
                else none
              else none
            else none
        else none
      else none
  else none

/-- Match `/^<((?:https?|ftp|mailto):[^>\s]+)>/`.
Returns `(url, n)`; the whole match consumes `n + 2` characters. -/
def autoLinkMatch (s : Str) : Option (Str × Nat) :=
  if s.head? = some '<' then
    let r := s.drop 1
    let scheme : Option Str :=
      if strStarts r ("https:".data) then some ("https:".data)
      else if strStarts r ("http:".data) then some ("http:".data)
      else if strStarts r ("ftp:".data) then some ("ftp:".data)
      else if strStarts r ("mailto:".data) then some ("mailto:".data)
      else none
    match scheme with
    | none => none
    | some sch =>
        let body := (r.drop sch.length).takeWhile (fun c => !jsWs c && c != '>')
        if body.isEmpty then none
        else if ((r.drop sch.length).drop body.length).head? = some '>' then
          some (sch ++ body, sch.length + body.length)
        else none
  else none

/-- mmmv2 autolink `/^<((?:https?|ftp|mailto):[^>]+)>/` (mmmv2.ts line 334):
unlike part_005's `[^>\s]+`, whitespace is allowed in the body.
Returns `(url, n)` where the whole match consumes `n + 2` characters. -/
def autoLinkMatchV2 (s : Str) : Option (Str × Nat) :=
  if s.head? = some '<' then
    let r := s.drop 1
    let scheme : Option Str :=
      if strStarts r ("https:".data) then some ("https:".data)
      else if strStarts r ("http:".data) then some ("http:".data)
      else if strStarts r ("ftp:".data) then some ("ftp:".data)
      else if strStarts r ("mailto:".data) then some ("mailto:".data)
      else none
    match scheme with
    | none => none
    | some sch =>
        let body := (r.drop sch.length).takeWhile (fun c => c != '>')
        if body.isEmpty then none
        else if ((r.drop sch.length).drop body.length).head? = some '>' then
          some (sch ++ body, sch.length + body.length)
        else none
  else none

/-- `/^[a-zA-Z0-9_-]+$/` body test for one character. -/
def isShortcodeChar (c : Char) : Bool :=
  c.isAlphanum || c == '_' || c == '-'

/-- `\w` (`[A-Za-z0-9_]`). -/
def isWordChar (c : Char) : Bool :=
  c.isAlphanum || c == '_'

/-- Output filter of `parseInline` (source line 643): keep tokens with truthy
content, non-empty children, or one of the structurally meaningful types. -/
def keepToken (t : Token) : Bool :=
  (match t.content with | some c => !c.isEmpty | none => false)
  || (match t.children with | some cs => !cs.isEmpty | none => false)
  || t.type == "cursor" || t.type == "image" || t.type == "link"
  || t.type == "inline_code" || t.type == "strikethrough" || t.type == "highlight"
  || t.type == "subscript" || t.type == "superscript"

/-- The text token for the scanned-over prefix, materialized when a pattern
matches at `i > 0` (the source's `remaining.substring(0, currentIndex)`). -/
def piPre (remaining : Str) (i : Nat) : List Token :=
  if i > 0 then [textTok (remaining.take i)] else []

mutual

/-- Inline tokenizer main loop: `tokens`, `remaining`, `i` mirror the source's
mutable `tokens`, `remaining`, `currentIndex` (part_005 `parseInline`). -/
def piLoop (em : Option EmojiMap) (tokens : List Token) (remaining : Str)
    (i : Nat) : List Token :=
  if hlt : i < remaining.length then
    -- Handle escaping
    if hesc : remaining.get? i = some '\\' ∧ i + 1 < remaining.length then
      piLoop em (tokens ++ piPre remaining i ++ [textTok [remaining.get ⟨i + 1, hesc.2⟩]])
        (remaining.drop (i + 2)) 0
    else
    -- Handle emoji :shortcode:
    match (match em with
           | none => none
           | some m =>
             if remaining.get? i = some ':' then
               match idxOfFrom remaining [':'] (i + 1) with
               | some j =>
                   let shortcode := strSlice remaining (i + 1) j
                   if (!shortcode.isEmpty && shortcode.all isShortcodeChar)
                       && hasEmoji m shortcode then
                     match getEmoji m shortcode with
                     | some e =>
                         if !e.isEmpty then
                           some (Token.mk "emoji" (some e) none
                             (some [("shortcode", MetaVal.str shortcode)]), j)
                         else none
                     | none => none
                   else none
               | none => none
             else none : Option (Token × Nat)) with
    | some (tok, nxt) =>
        piLoop em (tokens ++ piPre remaining i ++ [tok]) (remaining.drop (nxt + 1)) 0
    | none =>
    -- Handle cursor @!
    if strStarts (remaining.drop i) ['@', '!'] then
      if strStarts (remaining.drop (i + 2)) ['@', '!'] then
        piLoop em (tokens ++ piPre remaining i ++ [cursorTok, textTok ['@', '!']])
          ((remaining.drop (i + 2)).drop 2) 0
      else
        piLoop em (tokens ++ piPre remaining i ++ [cursorTok]) (remaining.drop (i + 2)) 0
    else
    -- Handle image ![alt](url "title")
    match (if strStarts (remaining.drop i) ['!', '['] then
             bracketScan false ((remaining.drop i).drop 2) 0
           else none) with
    | some (k, src, title, pc) =>
        let altText := ((remaining.drop i).drop 2).take k
        let tok := Token.mk "image" none
          (some (if !altText.isEmpty then parseInline altText em else []))
          (some [("src", MetaVal.str src), ("title", MetaVal.str title)])
        piLoop em (tokens ++ piPre remaining i ++ [tok])
          (remaining.drop (i + 2 + (k + 1 + (pc + 2)))) 0
    | none =>
    -- Handle footnote reference [^id]
    match (if strStarts (remaining.drop i) ['[', '^'] then
             match idxOfFrom remaining [']'] (i + 2) with
             | some j =>
                 let id := strSlice remaining (i + 2) j
                 if !id.isEmpty && id.all isWordChar then some (id, j) else none
             | none => none
           else none) with
    | some (id, j) =>
        piLoop em (tokens ++ piPre remaining i ++ [Token.mk "footnote_ref" (some id) none none])
          (remaining.drop (0 + j + 1)) 0
    | none =>
    -- Handle link [text](url "title")
    match (if remaining.get? i = some '[' then
             bracketScan true ((remaining.drop i).drop 1) 0
           else none) with
    | some (k, href, title, pc) =>
        let linkText := ((remaining.drop i).drop 1).take k
        let hrefTokens := if strIncludes href ['@', '!']
          then parseCursorOnlyContent href else []
        let md := ("title", MetaVal.str title) ::
          (if !hrefTokens.isEmpty then [("hrefTokens", MetaVal.toks hrefTokens)]
           else [("href", MetaVal.str href)])
        let tok := Token.mk "link" none
          (some (if !linkText.isEmpty then parseInline linkText em else []))
          (some md)
        piLoop em (tokens ++ piPre remaining i ++ [tok])
          (remaining.drop (i + 1 + (k + 1 + (pc + 2)))) 0
    | none =>
    -- Handle autolink <url> (image-card first)
    match (if remaining.get? i = some '<' then imageCardMatch (remaining.drop i)
           else none) with
    | some (w, n, src, c) =>
        let alt := ((remaining.drop i).drop (16 + w)).take n
        let tok := Token.mk "image" none (some (parseInline alt em))
          (some [("src", MetaVal.str src), ("title", MetaVal.str [])])
        piLoop em (tokens ++ piPre remaining i ++ [tok])
          (remaining.drop (i + 16 + w + n + c)) 0
    | none =>
    match (if remaining.get? i = some '<' then autoLinkMatch (remaining.drop i)
           else none) with
    | some (url, n) =>
        let urlTokens := if strIncludes url ['@', '!']
          then parseCursorOnlyContent url else []
        let tok := if !urlTokens.isEmpty then
            Token.mk "link" none (some urlTokens)
              (some [("hrefTokens", MetaVal.toks urlTokens)])
          else
            Token.mk "link" none (some [textTok url])
              (some [("href", MetaVal.str url)])
        piLoop em (tokens ++ piPre remaining i ++ [tok]) (remaining.drop (i + 2 + n)) 0
    | none =>
    -- Handle strikethrough ~~text~~
    match (if strStarts (remaining.drop i) ['~', '~'] then
             idxOfFrom remaining ['~', '~'] (i + 2)
           else none) with
    | some e =>
        if e > i + 2 then
          let strikeContent := strSlice remaining (i + 2) e
          let tok := if strIncludes strikeContent ['@', '!'] then
              Token.mk "strikethrough" none
                (some (parseCursorOnlyContent strikeContent)) none
            else Token.mk "strikethrough" (some strikeContent) none none
          piLoop em (tokens ++ piPre remaining i ++ [tok]) (remaining.drop (e + 2)) 0
        else if e = i + 2 then
          piLoop em (tokens ++ piPre remaining i ++ [Token.mk "strikethrough" (some []) none none])
            (remaining.drop (i + 4)) 0
        else piLoopTail em tokens remaining i
    | none => piLoopTail em tokens remaining i
  else
    tokens ++ (if remaining.length > 0 then [textTok remaining] else [])
termination_by (remaining.length, 2 * (remaining.length - i) + 2)
decreasing_by
  all_goals simp_wf
  all_goals try simp only [strSlice, List.length_drop, List.length_take]
  all_goals
    first
    | (apply Prod.Lex.left; omega)
    | (apply Prod.Lex.right; omega)
    | omega

/-- Continuation of `piLoop` after the strikethrough branch (split only to keep
the definition manageable; the control flow is the source's single loop). -/
def piLoopTail (em : Option EmojiMap) (tokens : List Token) (remaining : Str)
    (i : Nat) : List Token :=
  if hlt : i < remaining.length then
    -- Handle highlight ==text==
    match (if strStarts (remaining.drop i) ['=', '='] then
             idxOfFrom remaining ['=', '='] (i + 2)
           else none) with
    | some e =>
        let highlightContent := strSlice remaining (i + 2) e
        let tok := if strIncludes highlightContent ['@', '!'] then
            Token.mk "highlight" none
              (some (parseCursorOnlyContent highlightContent)) none
          else Token.mk "highlight" (some highlightContent) none none
        piLoop em (tokens ++ piPre remaining i ++ [tok]) (remaining.drop (e + 2)) 0
    | none =>
    -- Handle bold **text**
    match (if strStarts (remaining.drop i) ['*', '*'] then
             idxOfFrom remaining ['*', '*'] (i + 2)
           else none) with
    | some e0 =>
        let e1 := if e0 + 2 < remaining.length ∧ remaining.get? (e0 + 2) = some '*'
          then e0 + 1 else e0
        let tok := Token.mk "bold" none
          (some (parseInline (strSlice remaining (i + 2) e1) em)) none
        piLoop em (tokens ++ piPre remaining i ++ [tok]) (remaining.drop (e1 + 2)) 0
    | none =>
    -- Handle bold __text__
    match (if strStarts (remaining.drop i) ['_', '_'] then
             idxOfFrom remaining ['_', '_'] (i + 2)
           else none) with
    | some e =>
        let tok := Token.mk "bold" none
          (some (parseInline (strSlice remaining (i + 2) e) em)) none
        piLoop em (tokens ++ piPre remaining i ++ [tok]) (remaining.drop (e + 2)) 0
    | none =>
    -- Handle inline code `code`
    match (if remaining.get? i = some '`'
              && !strStarts (remaining.drop i) ['`', '`', '`'] then
             idxOfFrom remaining ['`'] (i + 1)
           else none) with
    | some e =>
        let codeContent := strSlice remaining (i + 1) e
        let tok := if strIncludes codeContent ['@', '!'] then
            Token.mk "inline_code" none
              (some (parseCursorOnlyContent codeContent)) none
          else Token.mk "inline_code" (some codeContent) none none
        piLoop em (tokens ++ piPre remaining i ++ [tok]) (remaining.drop (e + 1)) 0
    | none =>
    -- Handle italic *text*
    match (if remaining.get? i = some '*' && remaining.get? (i + 1) != some '*' then
             idxOfFrom remaining ['*'] (i + 1)
           else none) with
    | some e =>
        let tok := Token.mk "italic" none
          (some (parseInline (strSlice remaining (i + 1) e) em)) none
        piLoop em (tokens ++ piPre remaining i ++ [tok]) (remaining.drop (e + 1)) 0
    | none =>
    -- Handle italic _text_
    match (if remaining.get? i = some '_' && remaining.get? (i + 1) != some '_' then
             idxOfFrom remaining ['_'] (i + 1)
           else none) with
    | some e =>
        let tok := Token.mk "italic" none
          (some (parseInline (strSlice remaining (i + 1) e) em)) none
        piLoop em (tokens ++ piPre remaining i ++ [tok]) (remaining.drop (e + 1)) 0
    | none =>
    -- Handle subscript ~text~
    match (if remaining.get? i = some '~' && remaining.get? (i + 1) != some '~' then
             idxOfFrom remaining ['~'] (i + 1)
           else none) with
    | some e =>
        let subscriptContent := strSlice remaining (i + 1) e
        let tok := if strIncludes subscriptContent ['@', '!'] then
            Token.mk "subscript" none
              (some (parseCursorOnlyContent subscriptContent)) none
          else Token.mk "subscript" (some subscriptContent) none none
        piLoop em (tokens ++ piPre remaining i ++ [tok]) (remaining.drop (e + 1)) 0
    | none =>
    -- Handle superscript ^text^
    match (if remaining.get? i = some '^'
              && !strStarts (remaining.drop i) ['^', ' '] then
             idxOfFrom remaining ['^'] (i + 1)
           else none) with
    | some e =>
        let superscriptContent := strSlice remaining (i + 1) e
        let tok := if strIncludes superscriptContent ['@', '!'] then
            Token.mk "superscript" none
              (some (parseCursorOnlyContent superscriptContent)) none
          else Token.mk "superscript" (some superscriptContent) none none
        piLoop em (tokens ++ piPre remaining i ++ [tok]) (remaining.drop (e + 1)) 0
    | none =>
        piLoop em tokens remaining (i + 1)
  else
    tokens ++ (if remaining.length > 0 then [textTok remaining] else [])
termination_by (remaining.length, 2 * (remaining.length - i) + 1)
decreasing_by
  all_goals simp_wf
  all_goals try simp only [strSlice, List.length_drop, List.length_take]
  all_goals
    first
    | (apply Prod.Lex.left; omega)
    | (apply Prod.Lex.right; omega)
    | omega

/-- The inline tokenizer (source `parseInline`, part_005): a left-to-right
pass over a shrinking remainder, then the output filter. -/
def parseInline (text : Str) (em : Option EmojiMap) : List Token :=
  (piLoop em [] text 0).filter keepToken
termination_by (text.length, 2 * text.length + 3)
decreasing_by
  all_goals simp_wf
  all_goals (apply Prod.Lex.right; omega)

end

/-! ## Built-in line dispatcher (`parseBuiltIn`, part_005) -/

/-- `/^:?-+:?$/` - one table-separator cell. -/
def isSepCell (cell : Str) : Bool :=
  let c1 := if cell.head? = some ':' then cell.drop 1 else cell
  let c2 := if c1.getLast? = some ':' then c1.dropLast else c1
  !c2.isEmpty && c2.all (fun c => c == '-')

/-- Cell list of a table line: `split('|')`, trim, shift leading empty,
pop trailing empty (source lines 844-846). -/
def builtInTableCells (line : Str) : List Str :=
  let cells := (List.splitOn '|' line).map jsTrim
  let cells := if cells.head? = some [] then cells.drop 1 else cells
  if cells.getLast? = some [] then cells.dropLast else cells

/-- Alignment of one separator cell (`parseBuiltIn` table branch). -/
def builtInAlignment (cell : Str) : String :=
  if cell.head? = some ':' && cell.getLast? = some ':' then "center"
  else if cell.head? = some ':' then "left"
  else if cell.getLast? = some ':' then "right"
  else "none"

/-- Horizontal-rule test (`parseBuiltIn` lines 760-765). -/
def isHRLine (trimmed : Str) : Bool :=
  decide (3 ≤ trimmed.length) &&
  ((trimmed.all (fun c => c == '-' || jsWs c)
      && decide (3 ≤ (trimmed.filter (fun c => c == '-')).length))
   || (trimmed.all (fun c => c == '*' || jsWs c)
      && decide (3 ≤ (trimmed.filter (fun c => c == '*')).length))
   || (trimmed.all (fun c => c == '_' || jsWs c)
      && decide (3 ≤ (trimmed.filter (fun c => c == '_')).length)))

/-- `/^\[\^([\w]+)\]:\s*(.*)$/` - footnote definition; returns `(id, content)`. -/
def footnoteDefMatch (line : Str) : Option (Str × Str) :=
  if strStarts line ['[', '^'] then
    let id := (line.drop 2).takeWhile isWordChar
    if id.isEmpty then none
    else
      let r := (line.drop 2).drop id.length
      if strStarts r [']', ':'] then some (id, (r.drop 2).dropWhile jsWs)
      else none
  else none

/-- Scan `((?:>\s*)+)` from the start: returns `(consumed, count-of-gt)`. -/
def bqScan : Str → Nat × Nat
  | '>' :: rest =>
      let w := (rest.takeWhile jsWs).length
      let p := bqScan (rest.drop w)
      (1 + w + p.1, p.2 + 1)
  | _ => (0, 0)
termination_by s => s.length
decreasing_by
  simp only [List.length_drop, List.length_cons]
  omega

/-- Tail of the built-in heading regex after the content: all whitespace, or
`\s+{#([\w-]+)}` followed by whitespace.  `some id?` on a match. -/
def headingTail (r : Str) : Option (Option Str) :=
  let w := (r.takeWhile jsWs).length
  let r1 := r.drop w
  if 1 ≤ w ∧ strStarts r1 ['{', '#'] = true then
    let id := (r1.drop 2).takeWhile (fun c => isWordChar c || c == '-')
    let r2 := (r1.drop 2).drop id.length
    if (!id.isEmpty && r2.head? = some '}') ∧ (r2.drop 1).all jsWs = true then
      some (some id)
    else if r.all jsWs then some none else none
  else if r.all jsWs then some none else none

/-- Lazy `(.+?)` expansion: first `t0 < t ≤ line.length` whose tail matches. -/
def headingScan (line : Str) (t0 t : Nat) : Option (Str × Option Str) :=
  if t ≤ line.length then
    match headingTail (line.drop t) with
    | some id => some (strSlice line t0 t, id)
    | none => headingScan line t0 (t + 1)
  else none
termination_by line.length + 1 - t
decreasing_by omega

/-- `/^(#{1,6})\s+(.+?)(?:\s+{#([\w-]+)})?\s*$/` (built-in heading with
optional id); returns `(level, content, id?)`. -/
def builtInHeadingMatch (line : Str) : Option (Nat × Str × Option Str) :=
  let k := (line.takeWhile (fun c => c == '#')).length
  if 1 ≤ k ∧ k ≤ 6 then
    let afterHash := line.drop k
    let w := (afterHash.takeWhile jsWs).length
    if w = 0 then none
    else
      let t0 := k + w
      match headingScan line t0 (t0 + 1) with
      | some r => some (k, r.1, r.2)
      | none =>
          if 2 ≤ w ∧ t0 = line.length then some (k, strSlice line (t0 - 1) t0, none)
          else none
  else none

def headingTypeName (k : Nat) : String :=
  match k with
  | 1 => "h1" | 2 => "h2" | 3 => "h3" | 4 => "h4" | 5 => "h5" | 6 => "h6"
  | _ => "h0"

/-- `/^(\s*)([-+*]|\d+\.)\s+(.*)$/`; returns `(indent, marker, content)`. -/
def builtInListMatch (line : Str) : Option (Nat × Str × Str) :=
  let ind := (line.takeWhile jsWs).length
  let r := line.drop ind
  let marker? : Option Str :=
    match r.head? with
    | some '-' => some ['-']
    | some '+' => some ['+']
    | some '*' => some ['*']
    | some _ =>
        let ds := r.takeWhile Char.isDigit
        if !ds.isEmpty && (r.drop ds.length).head? = some '.' then some (ds ++ ['.'])
        else none
    | none => none
  match marker? with
  | none => none
  | some mk =>
      let r2 := r.drop mk.length
      let w := (r2.takeWhile jsWs).length
      if w = 0 then none else some (ind, mk, r2.drop w)

/-- `/^(\[.\])\s+(.*)$/` on list-item content; returns `(box, rest)`. -/
def taskMatch : Str → Option (Str × Str)
  | '[' :: c :: ']' :: rest =>
      if c = '\n' ∨ c = '\r' then none
      else
        let w := (rest.takeWhile jsWs).length
        if w = 0 then none else some (['[', c, ']'], rest.drop w)
  | _ => none

def digitsToNat (s : Str) : Nat :=
  s.foldl (fun a c => a * 10 + (c.toNat - 48)) 0

/-- `/^\d+\.$/` test on a list marker. -/
def isOrderedMarker (m : Str) : Bool :=
  decide (2 ≤ m.length) && (m.take (m.length - 1)).all Char.isDigit
    && m.getLast? = some '.'

/-- Built-in parsing logic (source `parseBuiltIn`, part_005 lines 738-881). -/
def parseBuiltIn (line : Str) (em : Option EmojiMap) : List Token :=
  if (jsTrim line).isEmpty || line.all jsWs then
    [Token.mk "empty_line" (some line) none none]
  else if strStarts line ['`', '`', '`'] && (jsTrim (line.drop 3)).all isWordChar then
    let t := jsTrim (line.drop 3)
    [Token.mk "code_fence" (some []) none
      (if t.isEmpty then none else some [("lang", MetaVal.str t)])]
  else if isHRLine (jsTrim line) then
    [Token.mk "hr" none none none]
  else
    match footnoteDefMatch line with
    | some (id, content) =>
        [Token.mk "footnote_def" none
          (some (if content.isEmpty then [] else parseInline content em))
          (some [("id", MetaVal.str id)])]
    | none =>
    if (bqScan line).2 ≥ 1 then
      let consumed := (bqScan line).1
      let level := (bqScan line).2
      [Token.mk "blockquote" none
        (some (parseInline (jsTrim (line.drop consumed)) em))
        (some [("level", MetaVal.num level)])]
    else
    match builtInHeadingMatch line with
    | some (k, content, id?) =>
        [Token.mk (headingTypeName k) none (some (parseInline content em))
          (match id? with | some id => some [("id", MetaVal.str id)] | none => none)]
    | none =>
    match builtInListMatch line with
    | some (ind, marker, content0) =>
        let task? := taskMatch content0
        let isTask := task?.isSome
        let checked : Bool := match task? with
          | some (box, _) => box == "[x]".data || box == "[X]".data
          | none => false
        let content := match task? with
          | some (_, rest) => rest
          | none => content0
        let ty := if isTask then "task_list_item"
          else if isOrderedMarker marker then "ordered_list_item"
          else "unordered_list_item"
        let md0 : List (String × MetaVal) := [("indent", MetaVal.num ind)]
        let md1 := if ty = "ordered_list_item" then
            md0 ++ [("start", MetaVal.num (digitsToNat (marker.take (marker.length - 1))))]
          else md0
        let md2 := if isTask then md1 ++ [("checked", MetaVal.bool checked)]
          else md1
        [Token.mk ty none (some (parseInline content em)) (some md2)]
    | none =>
    if strIncludes line ['|'] then
      let cells := builtInTableCells line
      if 2 ≤ cells.length then
        if cells.all isSepCell then
          [Token.mk "table_separator" none none
            (some [("alignments", MetaVal.strs (cells.map builtInAlignment))])]
        else
          [Token.mk "table_row" none
            (some (cells.map (fun cell =>
              Token.mk "table_cell" none (some (parseInline cell em)) none))) none]
      else parseInline line em
    else parseInline line em

/-- Backward compatibility: original `parse` function (part_005 line 884). -/
def parse (line : Str) (em : Option EmojiMap) : List Token :=
  parseBuiltIn line em

/-! ## TokenParser (plugin/hook registry, part_005) -/

structure ParsePlugin where
  name : String
  priority : Int
  canHandle : Str → Bool
  parse : Str → (Str → List Token) → Option (List Token)

structure TokenHook where
  name : String
  tokenType : String
  process : Token → Token

/-- Stable insertion (descending priority): models ES2019 stable
`sort((a, b) => b.priority - a.priority)`. -/
def insertPlugin (p : ParsePlugin) : List ParsePlugin → List ParsePlugin
  | [] => [p]
  | q :: qs => if q.priority < p.priority then p :: q :: qs else q :: insertPlugin p qs

def sortPlugins (ps : List ParsePlugin) : List ParsePlugin :=
  ps.foldl (fun acc p => insertPlugin p acc) []

/-- `addHook`: append to the type's list, creating the entry if missing. -/
def addHookAux (hooks : List (String × List TokenHook)) (h : TokenHook) :
    List (String × List TokenHook) :=
  if (hooks.lookup h.tokenType).isSome then
    hooks.map (fun e => if e.1 = h.tokenType then (e.1, e.2 ++ [h]) else e)
  else hooks ++ [(h.tokenType, [h])]

structure TokenParser where
  plugins : List ParsePlugin
  hooks : List (String × List TokenHook)
  emojiManager : Option EmojiMap

/-- The `TokenParser` constructor (sorts config plugins, registers hooks). -/
def TokenParser.create (plugins : List ParsePlugin) (hooks : List TokenHook)
    (em : Option EmojiMap) : TokenParser :=
  { plugins := sortPlugins plugins
    hooks := hooks.foldl addHookAux []
    emojiManager := em }

def TokenParser.addPlugin (tp : TokenParser) (p : ParsePlugin) : TokenParser :=
  { tp with plugins := sortPlugins (tp.plugins ++ [p]) }

def TokenParser.addHook (tp : TokenParser) (h : TokenHook) : TokenParser :=
  { tp with hooks := addHookAux tp.hooks h }

def TokenParser.applyHooks (tp : TokenParser) (t : Token) : Token :=
  match tp.hooks.lookup t.type with
  | none => t
  | some hs => hs.foldl (fun tok h => h.process tok) t

def TokenParser.processTokenRecursively (tp : TokenParser) : Token → Token
  | .mk ty c ch md =>
      let t' := match hch : ch with
        | some cs =>
            Token.mk ty c (some (cs.attach.map
              (fun x => tp.processTokenRecursively x.1))) md
        | none => Token.mk ty c ch md
      tp.applyHooks t'
termination_by t => sizeOf t
decreasing_by
  have hx := List.sizeOf_lt_of_mem x.2
  simp only [Option.some.sizeOf_spec, Token.mk.sizeOf_spec] at *
  omega

/-- First-refusal plugin scan of `TokenParser.parse`. -/
def pluginScan (tp : TokenParser) (line : Str) : List ParsePlugin → Option (List Token)
  | [] => none
  | p :: ps =>
      if p.canHandle line then
        match p.parse line (fun text => parseInline text tp.emojiManager) with
        | some result => some result
        | none => pluginScan tp line ps
      else pluginScan tp line ps

/-- `TokenParser.parse`: plugins in priority order, `null` falls through,
then the built-in dispatcher; hooks applied to the result. -/
def TokenParser.parse (tp : TokenParser) (line : Str) : List Token :=
  match pluginScan tp line tp.plugins with
  | some result => result.map tp.processTokenRecursively
  | none => (parseBuiltIn line tp.emojiManager).map tp.processTokenRecursively

/-! ## The token-based variant (`src/mmmv2.ts`): its `parseInline` differs from
part_005 in the cursor branch (captures the following character as content),
the link branch (no cursor handling, `href` always a plain string, non-empty
src), strikethrough/sub/superscript (no cursor children, no empty-strike
special case), autolink (no cursor handling) and the output filter. -/

namespace MmmV2

mutual

/-- mmmv2 inline tokenizer main loop (src/mmmv2.ts lines 178-523). -/
def piLoop (em : Option EmojiMap) (tokens : List Token) (remaining : Str)
    (i : Nat) : List Token :=
  if hlt : i < remaining.length then
    -- Handle escaping
    if hesc : remaining.get? i = some '\\' ∧ i + 1 < remaining.length then
      piLoop em (tokens ++ piPre remaining i ++ [textTok [remaining.get ⟨i + 1, hesc.2⟩]])
        (remaining.drop (i + 2)) 0
    else
    -- Handle emoji :shortcode:
    match (match em with
           | none => none
           | some m =>
             if remaining.get? i = some ':' then
               match idxOfFrom remaining [':'] (i + 1) with
               | some j =>
                   let shortcode := strSlice remaining (i + 1) j
                   if (!shortcode.isEmpty && shortcode.all isShortcodeChar)
                       && hasEmoji m shortcode then
                     match getEmoji m shortcode with
                     | some e =>
                         if !e.isEmpty then
                           some (Token.mk "emoji" (some e) none
                             (some [("shortcode", MetaVal.str shortcode)]), j)
                         else none
                     | none => none
                   else none
               | none => none
             else none : Option (Token × Nat)) with
    | some (tok, nxt) =>
        piLoop em (tokens ++ piPre remaining i ++ [tok]) (remaining.drop (nxt + 1)) 0
    | none =>
    -- Handle cursor @!  (v2: captures the next character as content)
    if strStarts (remaining.drop i) ['@', '!'] then
      if i + 2 < remaining.length then
        let cursorContent := ((remaining.drop i).drop 2).take 1
        piLoop em (tokens ++ piPre remaining i ++ [Token.mk "cursor" (some cursorContent) none none])
          (remaining.drop (i + 3)) 0
      else
        piLoop em (tokens ++ piPre remaining i ++ [Token.mk "cursor" (some []) none none])
          (remaining.drop (i + 2)) 0
    else
    -- Handle image ![alt](url "title")
    match (if strStarts (remaining.drop i) ['!', '['] then
             bracketScan false ((remaining.drop i).drop 2) 0
           else none) with
    | some (k, src, title, pc) =>
        let altText := ((remaining.drop i).drop 2).take k
        let tok := Token.mk "image" none (some (parseInline altText em))
          (some [("src", MetaVal.str src), ("title", MetaVal.str title)])
        piLoop em (tokens ++ piPre remaining i ++ [tok])
          (remaining.drop (i + 2 + (k + 1 + (pc + 2)))) 0
    | none =>
    -- Handle footnote reference [^id]
    match (if strStarts (remaining.drop i) ['[', '^'] then
             match idxOfFrom remaining [']'] (i + 2) with
             | some j =>
                 let id := strSlice remaining (i + 2) j
                 if !id.isEmpty && id.all isWordChar then some (id, j) else none
             | none => none
           else none) with
    | some (id, j) =>
        piLoop em (tokens ++ piPre remaining i ++ [Token.mk "footnote_ref" (some id) none none])
          (remaining.drop (j + 1)) 0
    | none =>
    -- Handle link [text](url "title")  (v2: non-empty src, plain href)
    match (if remaining.get? i = some '[' then
             bracketScan false ((remaining.drop i).drop 1) 0
           else none) with
    | some (k, href, title, pc) =>
        let linkText := ((remaining.drop i).drop 1).take k
        let tok := Token.mk "link" none (some (parseInline linkText em))
          (some [("href", MetaVal.str href), ("title", MetaVal.str title)])
        piLoop em (tokens ++ piPre remaining i ++ [tok])
          (remaining.drop (i + 1 + (k + 1 + (pc + 2)))) 0
    | none =>
    -- Handle autolink <url> (image-card first)
    match (if remaining.get? i = some '<' then imageCardMatch (remaining.drop i)
           else none) with
    | some (w, n, src, c) =>
        let alt := ((remaining.drop i).drop (16 + w)).take n
        let tok := Token.mk "image" none (some (parseInline alt em))
          (some [("src", MetaVal.str src), ("title", MetaVal.str [])])
        piLoop em (tokens ++ piPre remaining i ++ [tok])
          (remaining.drop (i + 16 + w + n + c)) 0
    | none =>
    match (if remaining.get? i = some '<' then autoLinkMatchV2 (remaining.drop i)
           else none) with
    | some (url, n) =>
        let tok := Token.mk "link" none (some [textTok url])
          (some [("href", MetaVal.str url)])
        piLoop em (tokens ++ piPre remaining i ++ [tok]) (remaining.drop (i + 2 + n)) 0
    | none =>
    -- Handle strikethrough ~~text~~  (v2: plain content)
    match (if strStarts (remaining.drop i) ['~', '~'] then
             idxOfFrom remaining ['~', '~'] (i + 2)
           else none) with
    | some e =>
        piLoop em (tokens ++ piPre remaining i ++
            [Token.mk "strikethrough" (some (strSlice remaining (i + 2) e)) none none])
          (remaining.drop (e + 2)) 0
    | none => piLoopTail em tokens remaining i
  else
    tokens ++ (if remaining.length > 0 then [textTok remaining] else [])
termination_by (remaining.length, 2 * (remaining.length - i) + 2)
decreasing_by
  all_goals simp_wf
  all_goals try simp only [strSlice, List.length_drop, List.length_take]
  all_goals
    first
    | (apply Prod.Lex.left; omega)
    | (apply Prod.Lex.right; omega)
    | omega

/-- Continuation of the mmmv2 loop after the strikethrough branch. -/
def piLoopTail (em : Option EmojiMap) (tokens : List Token) (remaining : Str)
    (i : Nat) : List Token :=
  if hlt : i < remaining.length then
    -- Handle highlight ==text==
    match (if strStarts (remaining.drop i) ['=', '='] then
             idxOfFrom remaining ['=', '='] (i + 2)
           else none) with
    | some e =>
        piLoop em (tokens ++ piPre remaining i ++
            [Token.mk "highlight" (some (strSlice remaining (i + 2) e)) none none])
          (remaining.drop (e + 2)) 0
    | none =>
    -- Handle bold **text**
    match (if strStarts (remaining.drop i) ['*', '*'] then
             idxOfFrom remaining ['*', '*'] (i + 2)
           else none) with
    | some e0 =>
        let e1 := if e0 + 2 < remaining.length ∧ remaining.get? (e0 + 2) = some '*'
          then e0 + 1 else e0
        let tok := Token.mk "bold" none
          (some (parseInline (strSlice remaining (i + 2) e1) em)) none
        piLoop em (tokens ++ piPre remaining i ++ [tok]) (remaining.drop (e1 + 2)) 0
    | none =>
    -- Handle bold __text__
    match (if strStarts (remaining.drop i) ['_', '_'] then
             idxOfFrom remaining ['_', '_'] (i + 2)
           else none) with
    | some e =>
        let tok := Token.mk "bold" none
          (some (parseInline (strSlice remaining (i + 2) e) em)) none
        piLoop em (tokens ++ piPre remaining i ++ [tok]) (remaining.drop (e + 2)) 0
    | none =>
    -- Handle inline code `code`
    match (if remaining.get? i = some '`'
              && !strStarts (remaining.drop i) ['`', '`', '`'] then
             idxOfFrom remaining ['`'] (i + 1)
           else none) with
    | some e =>
        piLoop em (tokens ++ piPre remaining i ++
            [Token.mk "inline_code" (some (strSlice remaining (i + 1) e)) none none])
          (remaining.drop (e + 1)) 0
    | none =>
    -- Handle italic *text*
    match (if remaining.get? i = some '*' && remaining.get? (i + 1) != some '*' then
             idxOfFrom remaining ['*'] (i + 1)
           else none) with
    | some e =>
        let tok := Token.mk "italic" none
          (some (parseInline (strSlice remaining (i + 1) e) em)) none
        piLoop em (tokens ++ piPre remaining i ++ [tok]) (remaining.drop (e + 1)) 0
    | none =>
    -- Handle italic _text_
    match (if remaining.get? i = some '_' && remaining.get? (i + 1) != some '_' then
             idxOfFrom remaining ['_'] (i + 1)
           else none) with
    | some e =>
        let tok := Token.mk "italic" none
          (some (parseInline (strSlice remaining (i + 1) e) em)) none
        piLoop em (tokens ++ piPre remaining i ++ [tok]) (remaining.drop (e + 1)) 0
    | none =>
    -- Handle subscript ~text~
    match (if remaining.get? i = some '~' && remaining.get? (i + 1) != some '~' then
             idxOfFrom remaining ['~'] (i + 1)
           else none) with
    | some e =>
        piLoop em (tokens ++ piPre remaining i ++
            [Token.mk "subscript" (some (strSlice remaining (i + 1) e)) none none])
          (remaining.drop (e + 1)) 0
    | none =>
    -- Handle superscript ^text^
    match (if remaining.get? i = some '^'
              && !strStarts (remaining.drop i) ['^', ' '] then
             idxOfFrom remaining ['^'] (i + 1)
           else none) with
    | some e =>
        piLoop em (tokens ++ piPre remaining i ++
            [Token.mk "superscript" (some (strSlice remaining (i + 1) e)) none none])
          (remaining.drop (e + 1)) 0
    | none =>
        piLoop em tokens remaining (i + 1)
  else
    tokens ++ (if remaining.length > 0 then [textTok remaining] else [])
termination_by (remaining.length, 2 * (remaining.length - i) + 1)
decreasing_by
  all_goals simp_wf
  all_goals try simp only [strSlice, List.length_drop, List.length_take]
  all_goals
    first
    | (apply Prod.Lex.left; omega)
    | (apply Prod.Lex.right; omega)
    | omega

/-- mmmv2 output filter (line 522): keep truthy content, non-empty children,
or cursor tokens. -/
def keepTokenV2 (t : Token) : Bool :=
  (match t.content with | some c => !c.isEmpty | none => false)
  || (match t.children with | some cs => !cs.isEmpty | none => false)
  || t.type == "cursor"

/-- mmmv2 `parseInline`. -/
def parseInline (text : Str) (em : Option EmojiMap) : List Token :=
  (piLoop em [] text 0).filter keepTokenV2
termination_by (text.length, 2 * text.length + 3)
decreasing_by
  all_goals simp_wf
  all_goals (apply Prod.Lex.right; omega)

end

end MmmV2

/-- The characters excluded by claim C2. -/
def c2Special : List Char :=
  ['\\', '*', '_', '~', '^', '=', '[', ']', '<', ':', '@', '`']

/-- Token types the spec calls "normally content-only". -/
def contentOnlyType (ty : String) : Bool :=
  ty == "inline_code" || ty == "strikethrough" || ty == "highlight"
    || ty == "subscript" || ty == "superscript"

/-- An ordered run of text and cursor fragments containing a cursor. -/
def cursorRunTokens (ts : List Token) : Bool :=
  ts.all (fun t => t.type == "text" || t.type == "cursor")
    && ts.any (fun t => t.type == "cursor")

/-- The per-token payload condition of C9: never both content and children;
a cursor token carries neither; a content-only type carries marker-free
content, or a cursor run as children in place of content. -/
def payloadOk (ty : String) (c : Option Str) (ch : Option (List Token)) : Bool :=
  !(c.isSome && ch.isSome)
  && (!(ty == "cursor") || (c.isNone && ch.isNone))
  && (!(contentOnlyType ty) ||
      (match c, ch with
       | some s, none => !strIncludes s ['@', '!']
       | none, some _ => true
       | _, _ => false))

mutual

/-- C9's invariant over a whole token tree: the payload condition at every
node, content-only nodes with children carry a cursor run, and `hrefTokens`
metadata (the link-target case) carries a cursor run while plain `href`
strings are marker-free. -/
def tokOk : Token → Bool
  | .mk ty c ch md =>
      payloadOk ty c ch
      && (!(contentOnlyType ty) ||
          (match ch with
           | some cs => cursorRunTokens cs
           | none => true))
      && (match ch with
          | some cs => toksOk cs
          | none => true)
      && (match md with
          | some es => mdOk es
          | none => true)

def toksOk : List Token → Bool
  | [] => true
  | t :: ts => tokOk t && toksOk ts

def mdOk : List (String × MetaVal) → Bool
  | [] => true
  | (k, v) :: es => mvOk k v && mdOk es

def mvOk : String → MetaVal → Bool
  | k, .str s => !(k == "href") || !strIncludes s ['@', '!']
  | _, .toks ts => cursorRunTokens ts && toksOk ts
  | _, _ => true

end

/-! ## MarkdownParser (part_010, `src/mmm.ts`): block state machine. -/

namespace MarkdownParser

/-- Tokenize step of `MarkdownParser.parseInline` (lines 1096-1185): splits the
text at formatting delimiters, dropping escape backslashes, reconstituting
`![`. -/
def piHtmlTokenize (text : Str) (i : Nat) (current : Str) (escape : Bool)
    (tokens : List Str) : List Str :=
  if h : i < text.length then
    match text.get? i with
    | none => tokens ++ (if current.isEmpty then [] else [current])
    | some char =>
        if escape then piHtmlTokenize text (i + 1) (current ++ [char]) false tokens
        else if char = '\\' then piHtmlTokenize text (i + 1) current true tokens
        else if char = '*' ∨ char = '_' then
          let pushed := tokens ++ (if current.isEmpty then [] else [current])
          match text.get? (i + 1) with
          | some n =>
              if n = '*' ∨ n = '_' then
                piHtmlTokenize text (i + 2) [] false (pushed ++ [[char, n]])
              else piHtmlTokenize text (i + 1) [] false (pushed ++ [[char]])
          | none => piHtmlTokenize text (i + 1) [] false (pushed ++ [[char]])
        else if char = '`' then
          piHtmlTokenize text (i + 1) [] false
            (tokens ++ (if current.isEmpty then [] else [current]) ++ [['`']])
        else if char = ':' then
          piHtmlTokenize text (i + 1) [] false
            (tokens ++ (if current.isEmpty then [] else [current]) ++ [[':']])
        else if char = '[' then
          let tk : Str := if 0 < i ∧ text.get? (i - 1) = some '!' then ['!', '[']
            else ['[']
          piHtmlTokenize text (i + 1) [] false
            (tokens ++ (if current.isEmpty then [] else [current]) ++ [tk])
        else if char = '!' ∧ i + 1 < text.length ∧ text.get? (i + 1) = some '[' then
          piHtmlTokenize text (i + 1) [] false
            (tokens ++ (if current.isEmpty then [] else [current]))
        else piHtmlTokenize text (i + 1) (current ++ [char]) false tokens
  else tokens ++ (if current.isEmpty then [] else [current])
termination_by text.length - i
decreasing_by all_goals omega

def natDigits (n : Nat) : Str := (toString n).data

def placeholder (tag : Str) (n : Nat) : Str :=
  '\x00' :: tag ++ natDigits n ++ ['\x00']

/-- `` /`([^`]+?)`/g `` replacement with placeholders (lines 1192-1197). -/
def codeSpanPass : Str → List Str → Str × List Str
  | [], spans => ([], spans)
  | c :: rest, spans =>
      if c = '`' then
        match hq : idxOfFrom rest ['`'] 0 with
        | some q =>
            if 1 ≤ q then
              let content := rest.take q
              let p := codeSpanPass (rest.drop (q + 1))
                (spans ++ ["<code>".data ++ content ++ "</code>".data])
              (placeholder ("CODE".data) spans.length ++ p.1, p.2)
            else
              let p := codeSpanPass rest spans
              (c :: p.1, p.2)
        | none =>
            let p := codeSpanPass rest spans
            (c :: p.1, p.2)
      else
        let p := codeSpanPass rest spans
        (c :: p.1, p.2)
termination_by s _ => s.length
decreasing_by all_goals simp only [List.length_drop, List.length_cons] <;> omega

def emojiHtmlChar (c : Char) : Bool :=
  c.isAlphanum || c == '_' || c == '+' || c == '-'

/-- `/:([a-zA-Z0-9_+-]+):/g` replacement with placeholders (lines 1200-1205). -/
def emojiPass : Str → List Str → Str × List Str
  | [], spans => ([], spans)
  | c :: rest, spans =>
      if c = ':' then
        let run := rest.takeWhile emojiHtmlChar
        if 1 ≤ run.length ∧ (rest.drop run.length).head? = some ':' then
          let whole := ':' :: (run ++ [':'])
          let span := "<span class=\"emoji\" data-emoji=\"".data ++ run
            ++ "\">".data ++ whole ++ "</span>".data
          let p := emojiPass (rest.drop (run.length + 1)) (spans ++ [span])
          (placeholder ("EMOJI".data) spans.length ++ p.1, p.2)
        else
          let p := emojiPass rest spans
          (c :: p.1, p.2)
      else
        let p := emojiPass rest spans
        (c :: p.1, p.2)
termination_by s _ => s.length
decreasing_by
  all_goals simp only [List.length_drop, List.length_cons]
  all_goals have := takeWhileLen emojiHtmlChar rest
  all_goals omega

/-- Find the lazy close for `/\*\*(.+?)\*\*/` : minimal `q ≥ 1` with a double
`ch` at `q`, no line terminator in the content. -/
def findClose2 (ch : Char) (t : Str) (q : Nat) : Option Nat :=
  if h : q + 1 < t.length then
    match t.get? q with
    | some c =>
        if c = '\n' ∨ c = '\r' then none
        else if c = ch ∧ t.get? (q + 1) = some ch ∧ 1 ≤ q then some q
        else findClose2 ch t (q + 1)
    | none => none
  else none
termination_by t.length - q
decreasing_by omega

/-- `/\*\*(.+?)\*\*/g → <strong>$1</strong>` (line 1208). -/
def boldPass : Str → Str
  | [] => []
  | '*' :: '*' :: rest =>
      (match findClose2 '*' rest 0 with
       | some q =>
           "<strong>".data ++ rest.take q ++ "</strong>".data
             ++ boldPass (rest.drop (q + 2))
       | none => '*' :: boldPass ('*' :: rest))
  | c :: rest => c :: boldPass rest
termination_by s => s.length
decreasing_by all_goals simp only [List.length_drop, List.length_cons] <;> omega

/-- `/\*([^*]+?)\*/g → <em>$1</em>` and the `_` variant (lines 1209-1210). -/
def italicPass (ch : Char) : Str → Str
  | [] => []
  | c :: rest =>
      if c = ch then
        let run := rest.takeWhile (fun x => x ≠ ch)
        if 1 ≤ run.length ∧ rest.get? run.length = some ch then
          "<em>".data ++ run ++ "</em>".data
            ++ italicPass ch (rest.drop (run.length + 1))
        else c :: italicPass ch rest
      else c :: italicPass ch rest
termination_by s => s.length
decreasing_by
  all_goals simp only [List.length_drop, List.length_cons]
  all_goals try have := takeWhileLen (fun x => decide (x ≠ ch)) rest
  all_goals omega

/-- `/!\[([^\]]*?)\]\(([^)]+?)\)/g → <img src="$2" alt="$1" />` (line 1213). -/
def imagePass : Str → Str
  | [] => []
  | '!' :: '[' :: rest =>
      (let alt := rest.takeWhile (fun x => x ≠ ']')
       if rest.get? alt.length = some ']' ∧ rest.get? (alt.length + 1) = some '(' then
         let r2 := rest.drop (alt.length + 2)
         let url := r2.takeWhile (fun x => x ≠ ')')
         if 1 ≤ url.length ∧ r2.get? url.length = some ')' then
           "<img src=\"".data ++ url ++ "\" alt=\"".data ++ alt ++ "\" />".data
             ++ imagePass (r2.drop (url.length + 1))
         else '!' :: imagePass ('[' :: rest)
       else '!' :: imagePass ('[' :: rest))
  | c :: rest => c :: imagePass rest
termination_by s => s.length
decreasing_by all_goals simp only [List.length_drop, List.length_cons] <;> omega

/-- `/\[([^\]]+?)\]\(([^)]+?)\)/g → <a href="$2">$1</a>` (line 1214). -/
def linkPass : Str → Str
  | [] => []
  | '[' :: rest =>
      (let txt := rest.takeWhile (fun x => x ≠ ']')
       if (1 ≤ txt.length ∧ rest.get? txt.length = some ']')
           ∧ rest.get? (txt.length + 1) = some '(' then
         let r2 := rest.drop (txt.length + 2)
         let url := r2.takeWhile (fun x => x ≠ ')')
         if 1 ≤ url.length ∧ r2.get? url.length = some ')' then
           "<a href=\"".data ++ url ++ "\">".data ++ txt ++ "</a>".data
             ++ linkPass (r2.drop (url.length + 1))
         else '[' :: linkPass rest
       else '[' :: linkPass rest)
  | c :: rest => c :: linkPass rest
termination_by s => s.length
decreasing_by all_goals simp only [List.length_drop, List.length_cons] <;> omega

/-- `/\x00TAG(\d+)\x00/g` restore pass (lines 1217-1220); a missing index
renders as JS string coercion of `undefined`. -/
def restorePass (tag : Str) (spans : List Str) : Str → Str
  | [] => []
  | c :: rest =>
      if c = '\x00' ∧ strStarts rest tag then
        let r1 := rest.drop tag.length
        let ds := r1.takeWhile Char.isDigit
        if 1 ≤ ds.length ∧ r1.get? ds.length = some '\x00' then
          ((spans.get? (digitsToNat ds)).getD ("undefined".data))
            ++ restorePass tag spans (r1.drop (ds.length + 1))
        else c :: restorePass tag spans rest
      else c :: restorePass tag spans rest
termination_by s => s.length
decreasing_by
  all_goals simp only [List.length_drop, List.length_cons]
  all_goals try have := takeWhileLen Char.isDigit (rest.drop tag.length)
  all_goals omega

/-- `MarkdownParser.parseInline` (lines 1094-1223): tokenize, then the
ordered regex-replacement chain with code/emoji span protection. -/
def parseInline (text : Str) : Str :=
  let toks := piHtmlTokenize text 0 [] false []
  let html0 := toks.flatten
  let p1 := codeSpanPass html0 []
  let p2 := emojiPass p1.1 []
  let html3 := boldPass p2.1
  let html4 := italicPass '*' html3
  let html5 := italicPass '_' html4
  let html6 := imagePass html5
  let html7 := linkPass html6
  let html8 := restorePass ("EMOJI".data) p2.2 html7
  restorePass ("CODE".data) p1.2 html8

end MarkdownParser

/-- The externally emitted unit (`interface RenderedElement`). -/
structure RenderedElement where
  type : String
  content : Str
  children : Option (List RenderedElement)
  attributes : Option (List (String × Str))
  classes : Option (List Str)

/-- `interface ParseResult`. -/
structure ParseResult where
  type : String
  element : Option RenderedElement := none
  remainingInput : Option Str := none
  error : Option String := none

/-- `interface ParserState` (part_010 lines 602-612). -/
structure ParserState where
  blockType : Option String
  buffer : List Str
  inCodeBlock : Bool
  codeBlockFence : Option Char
  codeBlockFenceLength : Option Nat
  listType : Option String
  listLevels : List Nat
  tableHeaders : Option (List Str)
  tableAlignments : Option (List String)

namespace MarkdownParser

/-- The constructor's initial state / `resetState()`. -/
def initialState : ParserState :=
  ⟨none, [], false, none, none, none, [], none, none⟩

/-- `interface LineInfo`. -/
structure LineInfo where
  raw : Str
  trimmed : Str
  leadingWhitespace : Str
  isWhitespaceOnly : Bool
  indentLevel : Nat
  type : String

/-- `classifyLine` (lines 767-790). -/
def classifyLine (line : Str) : LineInfo :=
  let trimmed := jsTrim line
  let leadingWhitespace := line.takeWhile jsWs
  let ty := if line.length = 0 then "empty"
    else if trimmed.length = 0 then "whitespace_only"
    else if 1 ≤ line.length ∧ line.all jsWs = true then "special_whitespace"
    else "content"
  { raw := line, trimmed := trimmed, leadingWhitespace := leadingWhitespace,
    isWhitespaceOnly := trimmed.length = 0,
    indentLevel := leadingWhitespace.length, type := ty }

/-- `DefaultThemeProvider.getTheme(...).classes` for the default theme. -/
def getThemeClasses : String → List Str
  | "p" => [[]]
  | "h1" => ["font-bold".data]
  | "h2" => ["font-bold".data]
  | "h3" => ["font-bold".data]
  | "h4" => ["font-bold".data]
  | "h5" => ["font-bold".data]
  | "h6" => ["font-bold".data]
  | "ol" => ["list-decimal".data, "list-inside".data]
  | "ul" => ["list-disc".data, "list-inside".data]
  | "img" => ["max-w-full".data, "h-auto".data]
  | "table" => ["table-auto".data, "border-collapse".data, "border".data,
      "border-gray-300".data, "w-full".data]
  | _ => []

/-- JS object spread merge `{...a, ...b}` for attribute records. -/
def mergeRecord (a b : List (String × Str)) : List (String × Str) :=
  (a.map (fun e => (e.1, (b.lookup e.1).getD e.2)))
    ++ b.filter (fun e => (a.lookup e.1).isNone)

/-- `applyTheme` (lines 688-696); the default theme defines no attributes. -/
def applyTheme (element : RenderedElement) : RenderedElement :=
  let merged := mergeRecord [] (element.attributes.getD [])
  { element with
    classes := some (getThemeClasses element.type ++ element.classes.getD [])
    attributes := if 0 < merged.length then some merged else none }

/-- `applyThemeToElement` (lines 698-709): theme applied recursively. -/
def applyThemeToElement : RenderedElement → RenderedElement
  | ⟨ty, co, ch, attrs, cls⟩ =>
      let t := applyTheme ⟨ty, co, ch, attrs, cls⟩
      match ch with
      | some cs =>
          { t with children := some (cs.attach.map
              (fun x => applyThemeToElement x.1)) }
      | none => t
termination_by el => sizeOf el
decreasing_by
  have hx := List.sizeOf_lt_of_mem x.2
  simp only [Option.some.sizeOf_spec, RenderedElement.mk.sizeOf_spec] at *
  omega

/-- A registered hook; a throwing callback is an `Except.error`. -/
abbrev Hook := RenderedElement → Except String RenderedElement

/-- `this.hooks`: a type-string-indexed record of hooks. -/
abbrev HookMap := List (String × Hook)

def getHook (hooks : HookMap) (k : String) : Option Hook :=
  hooks.lookup k

/-- The `__theme__` hook installed by the constructor (never throws). -/
def themeHook : Hook := fun el => .ok (applyTheme el)

/-- Constructor hook setup: the user record with `__theme__` set. -/
def effectiveHooks (userHooks : HookMap) : HookMap :=
  if (userHooks.lookup "__theme__").isSome then
    userHooks.map (fun e => if e.1 = "__theme__" then (e.1, themeHook) else e)
  else userHooks ++ [("__theme__", themeHook)]

def defaultHooks : HookMap := effectiveHooks []

/-- `completeElement` (lines 1234-1249): `__theme__` hook, then the hook for
the element's type, then state reset and a `complete` result. -/
def completeElement (hooks : HookMap) (element : RenderedElement) :
    Except String (ParserState × ParseResult) :=
  match (match getHook hooks "__theme__" with
         | some h => h element
         | none => .ok element) with
  | .error e => .error e
  | .ok fe1 =>
      match (match getHook hooks element.type with
             | some h => h fe1
             | none => .ok fe1) with
      | .error e => .error e
      | .ok fe2 => .ok (initialState, { type := "complete", element := some fe2 })

/-- `isBlockquote`: `/^\s*>\s*/`. -/
def isBlockquote (line : Str) : Bool :=
  (line.dropWhile jsWs).head? == some '>'

/-- `stripBlockquotePrefix`: remove a `/^\s*>\s*/` match. -/
def stripBlockquotePrefix (line : Str) : Str :=
  let w := (line.takeWhile jsWs).length
  if (line.drop w).head? = some '>' then ((line.drop w).drop 1).dropWhile jsWs
  else line

/-- `getListInfo`: `/^(\s*)([-*+]|\d+[.)])\s+/` → `(indent, isOrdered, marker)`. -/
def getListInfo (line : Str) : Option (Nat × Bool × Str) :=
  let ind := (line.takeWhile jsWs).length
  let r := line.drop ind
  let marker? : Option Str :=
    match r.head? with
    | some '-' => some ['-']
    | some '*' => some ['*']
    | some '+' => some ['+']
    | some _ =>
        let ds := r.takeWhile Char.isDigit
        (match (r.drop ds.length).head? with
         | some '.' => if ds.isEmpty then none else some (ds ++ ['.'])
         | some ')' => if ds.isEmpty then none else some (ds ++ [')'])
         | _ => none)
    | none => none
  match marker? with
  | none => none
  | some mk =>
      if 1 ≤ ((r.drop mk.length).takeWhile jsWs).length then
        some (ind, (match mk.head? with | some c => c.isDigit | none => false), mk)
      else none

/-- `isCodeBlockStart`: `/^(\s*)(`{3,}|~{3,})/`. -/
def isCodeBlockStart (line : Str) : Bool :=
  let r := line.dropWhile jsWs
  decide (3 ≤ (r.takeWhile (fun c => c == '`')).length)
    || decide (3 ≤ (r.takeWhile (fun c => c == '~')).length)

/-- `isHeading`: `/^#{1,6}\s/` on the trimmed line. -/
def isHeading (trimmed : Str) : Bool :=
  let k := (trimmed.takeWhile (fun c => c == '#')).length
  decide (1 ≤ k ∧ k ≤ 6) && ((trimmed.get? k).map jsWs).getD false

/-- `isTableLine`: trimmed line contains `|` and is non-empty. -/
def isTableLine (line : Str) : Bool :=
  strIncludes (jsTrim line) ['|'] && !(jsTrim line).isEmpty

/-- `isTableSeparator` (lines 1261-1272). -/
def isTableSeparator (line : Str) : Bool :=
  let trimmed := jsTrim line
  if !(strIncludes trimmed ['-']) then false
  else
    let c1 := if trimmed.head? = some '|' then trimmed.drop 1 else trimmed
    let cleaned := if c1.getLast? = some '|' then c1.dropLast else c1
    (List.splitOn '|' cleaned).all (fun part =>
      let p := jsTrim part
      (!p.isEmpty && p.all (fun c => jsWs c || c == '-' || c == ':'))
        && strIncludes p ['-'])

/-- `parseTableRow` (lines 1341-1346). -/
def parseTableRow (line : Str) : List Str :=
  let trimmed := jsTrim line
  let c1 := if trimmed.head? = some '|' then trimmed.drop 1 else trimmed
  let cleaned := if c1.getLast? = some '|' then c1.dropLast else c1
  (List.splitOn '|' cleaned).map jsTrim

/-- `parseTableAlignments` (lines 1348-1362): note plain cells are `left`. -/
def parseTableAlignments (line : Str) : List String :=
  (parseTableRow line).map (fun sep =>
    if sep.head? = some ':' && sep.getLast? = some ':' then "center"
    else if sep.getLast? = some ':' then "right"
    else "left")

/-- `startCodeBlock` (lines 907-918): the alternation tries backticks first. -/
def startCodeBlock (st : ParserState) (line : Str) : ParserState × ParseResult :=
  let r := line.dropWhile jsWs
  let btRun := (r.takeWhile (fun c => c == '`')).length
  let tdRun := (r.takeWhile (fun c => c == '~')).length
  if 3 ≤ btRun then
    ({ st with
        inCodeBlock := true
        codeBlockFence := some '`'
        codeBlockFenceLength := some btRun
        blockType := some "code_block"
        buffer := [jsTrim (r.drop btRun)] }, { type := "need_more_lines" })
  else if 3 ≤ tdRun then
    ({ st with
        inCodeBlock := true
        codeBlockFence := some '~'
        codeBlockFenceLength := some tdRun
        blockType := some "code_block"
        buffer := [jsTrim (r.drop tdRun)] }, { type := "need_more_lines" })
  else (st, { type := "need_next_token" })

/-- The code-block element emitted on fence close / lenient EOF. -/
def codeBlockElement (st : ParserState) : RenderedElement :=
  { type := "code_block",
    content := List.intercalate ['\n'] (st.buffer.drop 1),
    children := none,
    attributes := some (match st.buffer.head? with
      | some l => if l.isEmpty then [] else [("data-language", l)]
      | none => []),
    classes := none }

/-- `handleCodeBlockLine` (lines 921-939).  The close test uses the single
fence character, the whole trimmed length, and `charAt(fenceLength)`. -/
def handleCodeBlockLine (hooks : HookMap) (st : ParserState) (line : Str) :
    Except String (ParserState × ParseResult) :=
  let trimmed := jsTrim line
  match st.codeBlockFence, st.codeBlockFenceLength with
  | some f, some n =>
      if strStarts trimmed [f] ∧ n ≤ trimmed.length ∧ trimmed.get? n ≠ some f then
        completeElement hooks (codeBlockElement st)
      else .ok ({ st with buffer := st.buffer ++ [line] }, { type := "need_more_lines" })
  | _, _ =>
      .ok ({ st with buffer := st.buffer ++ [line] }, { type := "need_more_lines" })

/-- `/^\s*(#{1,6})\s+(.+)$/` of `handleHeading`; returns `(level, content)`. -/
def mpHeadingMatch (line : Str) : Option (Nat × Str) :=
  let lw := (line.takeWhile jsWs).length
  let r := line.drop lw
  let k := (r.takeWhile (fun c => c == '#')).length
  if 1 ≤ k ∧ k ≤ 6 then
    let t := r.drop k
    let w := (t.takeWhile jsWs).length
    if w = 0 then none
    else if w < t.length then some (k, t.drop w)
    else if 2 ≤ w then some (k, strSlice t (w - 1) w)
    else none
  else none

/-- `handleHeading` (lines 941-954). -/
def handleHeading (hooks : HookMap) (st : ParserState) (line : Str) :
    Except String (ParserState × ParseResult) :=
  match mpHeadingMatch line with
  | none => .ok (st, { type := "need_next_token" })
  | some (level, content) =>
      completeElement hooks
        { type := headingTypeName level, content := parseInline (jsTrim content),
          children := none, attributes := none, classes := none }

def handleBlockquote (st : ParserState) (line : Str) : ParserState × ParseResult :=
  ({ st with
      blockType := some "blockquote"
      buffer := [stripBlockquotePrefix line] }, { type := "need_more_lines" })

def handleList (st : ParserState) (line : Str) (info : Nat × Bool × Str) :
    ParserState × ParseResult :=
  ({ st with
      blockType := some "list"
      listType := some (if info.2.1 then "ordered" else "unordered")
      listLevels := [info.1]
      buffer := [line] }, { type := "need_more_lines" })

def handleTable (st : ParserState) (line : Str) : ParserState × ParseResult :=
  ({ st with blockType := some "table", buffer := [line] },
    { type := "need_more_lines" })

def handleParagraph (st : ParserState) (line : Str) : ParserState × ParseResult :=
  ({ st with blockType := some "paragraph", buffer := [line] },
    { type := "need_more_lines" })

/-- `completeParagraph` (lines 1070-1077); an empty buffer models the JS
`TypeError` from `parseInline(undefined)`, caught by `completeCurrentBlock`. -/
def completeParagraph (hooks : HookMap) (st : ParserState) :
    Except String (ParserState × ParseResult) :=
  match st.buffer.head? with
  | none => .error "TypeError: undefined buffer line"
  | some content =>
      completeElement hooks
        { type := "p", content := parseInline content, children := none,
          attributes := none, classes := none }

/-- `completeIncompleteCodeBlock` (lines 1079-1090): lenient EOF. -/
def completeIncompleteCodeBlock (hooks : HookMap) (st : ParserState) :
    Except String (ParserState × ParseResult) :=
  completeElement hooks (codeBlockElement st)

/-- `completeBlockquote` (lines 962-975): re-parse the unwrapped buffer. -/
def completeBlockquote (inner : Str → Except String (List RenderedElement))
    (hooks : HookMap) (st : ParserState) :
    Except String (ParserState × ParseResult) :=
  match inner (List.intercalate ['\n'] st.buffer) with
  | .error e => .error e
  | .ok children =>
      completeElement hooks
        { type := "blockquote", content := [], children := some children,
          attributes := none, classes := none }

/-- Length of the `/^\s*([-*+]|\d+[.)])\s+/` match (0 when no match). -/
def listMarkerPrefixLen (line : Str) : Nat :=
  match getListInfo line with
  | some (ind, _, mk) =>
      ind + mk.length + ((line.drop (ind + mk.length)).takeWhile jsWs).length
  | none => 0

/-- `createListItem` (lines 1016-1055): re-parse, unwrap single paragraphs,
apply theme and `li` hooks. -/
def createListItem (inner : Str → Except String (List RenderedElement))
    (hooks : HookMap) (lines : List Str) : Except String RenderedElement :=
  match lines with
  | [] => .error "TypeError: undefined first item line"
  | firstLine :: rest =>
      let firstContent := firstLine.drop (listMarkerPrefixLen firstLine)
      match inner (List.intercalate ['\n'] (firstContent :: rest)) with
      | .error e => .error e
      | .ok children =>
          let element : RenderedElement :=
            { type := "li", content := [], children := some children,
              attributes := none, classes := none }
          let element := match children with
            | [c] => if c.type = "p" then
                { element with content := c.content, children := none }
              else element
            | _ => element
          match (match getHook hooks "__theme__" with
                 | some h => h element
                 | none => .ok element) with
          | .error e => .error e
          | .ok fe1 =>
              match (match getHook hooks "li" with
                     | some h => h fe1
                     | none => .ok fe1) with
              | .error e => .error e
              | .ok fe2 => .ok fe2

/-- `parseListItems` (lines 995-1014): partition the buffer into items at
marker lines whose indent is at most the recorded level. -/
def parseListItemsGo (inner : Str → Except String (List RenderedElement))
    (hooks : HookMap) (lastLevel : Nat) :
    List Str → List Str → Except String (List RenderedElement)
  | [], currentItem =>
      if currentItem.isEmpty then .ok []
      else
        match createListItem inner hooks currentItem with
        | .error e => .error e
        | .ok item => .ok [item]
  | l :: ls, currentItem =>
      match getListInfo l with
      | some info =>
          if ¬currentItem.isEmpty ∧ info.1 ≤ lastLevel then
            match createListItem inner hooks currentItem with
            | .error e => .error e
            | .ok item =>
                match parseListItemsGo inner hooks lastLevel ls [l] with
                | .error e => .error e
                | .ok rest => .ok (item :: rest)
          else parseListItemsGo inner hooks lastLevel ls (currentItem ++ [l])
      | none => parseListItemsGo inner hooks lastLevel ls (currentItem ++ [l])

/-- `completeList` (lines 985-993). -/
def completeList (inner : Str → Except String (List RenderedElement))
    (hooks : HookMap) (st : ParserState) :
    Except String (ParserState × ParseResult) :=
  match parseListItemsGo inner hooks ((st.listLevels.getLast?).getD 0)
      st.buffer [] with
  | .error e => .error e
  | .ok items =>
      completeElement hooks
        { type := (if st.listType = some "ordered" then "ol" else "ul"),
          content := [], children := some items, attributes := none,
          classes := none }

/-- One themed table cell of `completeTable`. -/
def tableCell (cty : String) (alignments : List String) (index : Nat)
    (cell : Str) : RenderedElement :=
  { type := cty, content := parseInline cell, children := none,
    attributes := (match alignments.get? index with
      | some a => if a ≠ "left" then some [("style", ("text-align: " ++ a).data)]
          else none
      | none => none),
    classes := none }

/-- `completeTable` (lines 1280-1339): validate, else fall back to
`completeParagraph`. -/
def completeTable (hooks : HookMap) (st : ParserState) :
    Except String (ParserState × ParseResult) :=
  match st.buffer with
  | headerLine :: sepLine :: restRows =>
      if ¬isTableSeparator sepLine then completeParagraph hooks st
      else
        let headers := parseTableRow headerLine
        let alignments := parseTableAlignments sepLine
        let dataRows := restRows.map parseTableRow
        let theadRow : RenderedElement :=
          { type := "tr", content := [], attributes := none, classes := none,
            children := some (headers.mapIdx
              (fun i h => tableCell "th" alignments i h)) }
        let theadEl : RenderedElement :=
          { type := "thead", content := [], attributes := none, classes := none,
            children := some [theadRow] }
        let tbodyEl : RenderedElement :=
          { type := "tbody", content := [], attributes := none, classes := none,
            children := some (dataRows.map (fun row =>
              { type := "tr", content := [], attributes := none, classes := none,
                children := some (row.mapIdx
                  (fun i c => tableCell "td" alignments i c)) })) }
        completeElement hooks
          { type := "table", content := [],
            children := some [applyThemeToElement theadEl,
              applyThemeToElement tbodyEl],
            attributes := none, classes := none }
  | _ => completeParagraph hooks st

/-- The `try` body of `completeCurrentBlock` (lines 849-872). -/
def tryComplete (inner : Str → Except String (List RenderedElement))
    (hooks : HookMap) (st : ParserState) :
    Except String (ParserState × ParseResult) :=
  if st.blockType = some "paragraph" then completeParagraph hooks st
  else if st.blockType = some "blockquote" then completeBlockquote inner hooks st
  else if st.blockType = some "list" then completeList inner hooks st
  else if st.blockType = some "table" then completeTable hooks st
  else if st.blockType = some "code_block" ∨ st.inCodeBlock then
    completeIncompleteCodeBlock hooks st
  else .ok (st, { type := "need_next_token" })

/-- `completeCurrentBlock`: the `try`/`catch` - an error resets the state and
is carried in a `need_next_token` result. -/
def completeCurrentBlock (inner : Str → Except String (List RenderedElement))
    (hooks : HookMap) (st : ParserState) : ParserState × ParseResult :=
  match tryComplete inner hooks st with
  | .ok r => r
  | .error e => (initialState, { type := "need_next_token", error := some e })

/-- `continueCurrentBlock` (lines 792-847); returns (continue?, new state). -/
def continueCurrentBlock (st : ParserState) (line trimmed : Str) :
    Bool × ParserState :=
  match st.blockType with
  | some "paragraph" => (false, st)
  | some "blockquote" =>
      if isBlockquote line then
        (true, { st with buffer := st.buffer ++ [stripBlockquotePrefix line] })
      else if ¬trimmed.isEmpty ∧ ¬isCodeBlockStart line ∧ ¬isHeading trimmed
          ∧ (getListInfo line).isNone then
        (true, { st with buffer := st.buffer ++ [line] })
      else (false, st)
  | some "list" =>
      if (getListInfo line).isSome then
        (true, { st with buffer := st.buffer ++ [line] })
      else if line.head? = some ' ' ∧ ¬trimmed.isEmpty then
        (true, { st with buffer := st.buffer ++ [line] })
      else (false, st)
  | some "table" =>
      if isTableLine line then (true, { st with buffer := st.buffer ++ [line] })
      else (false, st)
  | _ => (true, { st with buffer := st.buffer ++ [line] })

/-- `handleEmptyLine` (lines 1063-1068). -/
def handleEmptyLine (inner : Str → Except String (List RenderedElement))
    (hooks : HookMap) (st : ParserState) : ParserState × ParseResult :=
  if st.blockType ≠ none ∧ st.blockType ≠ some "code_block"
      ∧ st.blockType ≠ some "blockquote" ∧ st.blockType ≠ some "list" then
    completeCurrentBlock inner hooks st
  else (st, { type := "need_more_lines" })

/-- `blankLineProcessor.canHandle` (priority 100). -/
def blankCanHandle (li : LineInfo) (st : ParserState) : Bool :=
  li.isWhitespaceOnly && !st.inCodeBlock

/-- `blankLineProcessor.process` (lines 1412-1429). -/
def blankProcess (inner : Str → Except String (List RenderedElement))
    (hooks : HookMap) (li : LineInfo) (st : ParserState) :
    Except String (ParserState × ParseResult) :=
  if st.blockType ≠ none then
    let p := completeCurrentBlock inner hooks st
    if p.2.type = "complete" then
      .ok (p.1, { p.2 with remainingInput := some li.raw })
    else .ok p
  else
    completeElement hooks
      { type := "empty_line", content := [], children := none,
        attributes := none, classes := none }

/-- `/^\s*!\[([^\]]*?)\]\(([^)]+?)\)\s*$/` of the image processor. -/
def imageLineMatch (line : Str) : Option (Str × Str) :=
  let r := line.dropWhile jsWs
  if strStarts r ['!', '['] then
    let t := r.drop 2
    let alt := t.takeWhile (fun c => c ≠ ']')
    if t.get? alt.length = some ']' ∧ t.get? (alt.length + 1) = some '(' then
      let r2 := t.drop (alt.length + 2)
      let src := r2.takeWhile (fun c => c ≠ ')')
      if (1 ≤ src.length ∧ r2.get? src.length = some ')')
          ∧ (r2.drop (src.length + 1)).all jsWs = true then
        some (alt, src)
      else none
    else none
  else none

/-- `imageProcessor.canHandle` (priority 90). -/
def imageCanHandle (li : LineInfo) (st : ParserState) : Bool :=
  !st.inCodeBlock && st.blockType.isNone && (imageLineMatch li.raw).isSome

/-- `imageProcessor.process` (lines 1446-1466). -/
def imageProcess (hooks : HookMap) (li : LineInfo) (st : ParserState) :
    Except String (ParserState × ParseResult) :=
  match imageLineMatch li.raw with
  | none => .ok (st, { type := "need_next_token" })
  | some (alt, src) =>
      completeElement hooks
        { type := "img", content := [], children := none,
          attributes := some [("src", jsTrim src), ("alt", jsTrim alt)],
          classes := none }

/-- `feedLine` (lines 711-765), with the default processors
(blank priority 100, image priority 90) consulted first. -/
def feedLine (inner : Str → Except String (List RenderedElement))
    (hooks : HookMap) (st : ParserState) (line : Str) :
    Except String (ParserState × ParseResult) :=
  if st.inCodeBlock then handleCodeBlockLine hooks st line
  else
    let li := classifyLine line
    if blankCanHandle li st then blankProcess inner hooks li st
    else if imageCanHandle li st then imageProcess hooks li st
    else if li.trimmed.isEmpty then .ok (handleEmptyLine inner hooks st)
    else if st.blockType ≠ none then
      let p := continueCurrentBlock st line li.trimmed
      if p.1 then .ok (p.2, { type := "need_more_lines" })
      else
        let q := completeCurrentBlock inner hooks p.2
        if q.2.type = "complete" then
          .ok (q.1, { q.2 with remainingInput := some line })
        else .ok q
    else if isCodeBlockStart line then .ok (startCodeBlock st line)
    else if isHeading li.trimmed then handleHeading hooks st line
    else if isBlockquote line then .ok (handleBlockquote st line)
    else
      match getListInfo line with
      | some info => .ok (handleList st line info)
      | none =>
          if isTableLine line then .ok (handleTable st line)
          else .ok (handleParagraph st line)

/-- `markdown.split(/\r?\n/)`. -/
def splitLines : Str → List Str
  | [] => [[]]
  | '\r' :: '\n' :: rest => [] :: splitLines rest
  | '\n' :: rest => [] :: splitLines rest
  | c :: rest =>
      match splitLines rest with
      | [] => [[c]]
      | l :: ls => (c :: l) :: ls


/-- The element pushed by the `parse` loop for one `feedLine` result:
pushed iff the result is `complete` with a (truthy) element. -/
def pushedOf (r : ParseResult) : List RenderedElement :=
  if r.type = "complete" then
    match r.element with
    | some el => [el]
    | none => []
  else []

/-- The `while (i < lines.length)` loop of `parse` (lines 1368-1379).  A
result with `remainingInput` stays on the same line; `fuel` bounds the
number of feeds, and `2 * lines.length + 1` is proven sufficient below
(each line is fed at most twice, because a result with `remainingInput`
carries the reset state and the reset state never yields `remainingInput`). -/
def parseLoop (feed : ParserState → Str → Except String (ParserState × ParseResult)) :
    Nat → ParserState → List Str → Except String (ParserState × List RenderedElement)
  | 0, _, _ => .error "loop limit exceeded"
  | _ + 1, st, [] => .ok (st, [])
  | fuel + 1, st, l :: rest =>
      match feed st l with
      | .error e => .error e
      | .ok p =>
          match parseLoop feed fuel p.1
              (if p.2.remainingInput.isSome then l :: rest else rest) with
          | .error e => .error e
          | .ok q => .ok (q.1, pushedOf p.2 ++ q.2)

/-- `parse` (lines 1364-1386) with explicit recursion fuel: each unit of
fuel covers one level of nested re-parsing (blockquote bodies and list
items construct a fresh parser on their buffered content).  Fuel `0`
yields an error; `parse` below supplies enough fuel for any input. -/
def parseDocFuel (hooks : HookMap) : Nat → Str → Except String (List RenderedElement)
  | 0, _ => .error "recursion depth exceeded"
  | n + 1, md =>
      match parseLoop (feedLine (parseDocFuel hooks n) hooks)
          (2 * (splitLines md).length + 1) initialState (splitLines md) with
      | .error e => .error e
      | .ok (st, toks) =>
          .ok (toks ++ pushedOf (completeCurrentBlock (parseDocFuel hooks n) hooks st).2)

def parse (userHooks : HookMap) (md : Str) : Except String (List RenderedElement) :=
  parseDocFuel (effectiveHooks userHooks) (md.length + 2) md

theorem completeElement_spec {hooks : HookMap} {el : RenderedElement}
    {p : ParserState × ParseResult} (h : completeElement hooks el = .ok p) :
    p.1 = initialState ∧ p.2.type = "complete" ∧ p.2.remainingInput = none := by
  unfold completeElement at h
  split at h
  · simp at h
  · split at h
    · simp at h
    · injection h with h'
      subst h'
      exact ⟨rfl, rfl, rfl⟩

theorem completeParagraph_spec {hooks : HookMap} {st : ParserState}
    {p : ParserState × ParseResult} (h : completeParagraph hooks st = .ok p) :
    p.1 = initialState ∧ p.2.type = "complete" ∧ p.2.remainingInput = none := by
  unfold completeParagraph at h
  split at h
  · simp at h
  · exact completeElement_spec h

theorem completeIncompleteCodeBlock_spec {hooks : HookMap} {st : ParserState}
    {p : ParserState × ParseResult}
    (h : completeIncompleteCodeBlock hooks st = .ok p) :
    p.1 = initialState ∧ p.2.type = "complete" ∧ p.2.remainingInput = none := by
  unfold completeIncompleteCodeBlock at h
  exact completeElement_spec h

theorem completeBlockquote_spec {inner : Str → Except String (List RenderedElement)}
    {hooks : HookMap} {st : ParserState} {p : ParserState × ParseResult}
    (h : completeBlockquote inner hooks st = .ok p) :
    p.1 = initialState ∧ p.2.type = "complete" ∧ p.2.remainingInput = none := by
  unfold completeBlockquote at h
  split at h
  · simp at h
  · exact completeElement_spec h

theorem completeList_spec {inner : Str → Except String (List RenderedElement)}
    {hooks : HookMap} {st : ParserState} {p : ParserState × ParseResult}
    (h : completeList inner hooks st = .ok p) :
    p.1 = initialState ∧ p.2.type = "complete" ∧ p.2.remainingInput = none := by
  unfold completeList at h
  split at h
  · simp at h
  · exact completeElement_spec h

theorem completeTable_spec {hooks : HookMap} {st : ParserState}
    {p : ParserState × ParseResult} (h : completeTable hooks st = .ok p) :
    p.1 = initialState ∧ p.2.type = "complete" ∧ p.2.remainingInput = none := by
  unfold completeTable at h
  split at h
  · split at h
    · exact completeParagraph_spec h
    · exact completeElement_spec h
  · exact completeParagraph_spec h

theorem tryComplete_spec {inner : Str → Except String (List RenderedElement)}
    {hooks : HookMap} {st : ParserState} {p : ParserState × ParseResult}
    (h : tryComplete inner hooks st = .ok p) :
    p.2.remainingInput = none
      ∧ (p.2.type = "complete" → p.1 = initialState) := by
  unfold tryComplete at h
  split_ifs at h with h1 h2 h3 h4 h5
  · exact ⟨(completeParagraph_spec h).2.2, fun _ => (completeParagraph_spec h).1⟩
  · exact ⟨(completeBlockquote_spec h).2.2, fun _ => (completeBlockquote_spec h).1⟩
  · exact ⟨(completeList_spec h).2.2, fun _ => (completeList_spec h).1⟩
  · exact ⟨(completeTable_spec h).2.2, fun _ => (completeTable_spec h).1⟩
  · exact ⟨(completeIncompleteCodeBlock_spec h).2.2,
      fun _ => (completeIncompleteCodeBlock_spec h).1⟩
  · injection h with h'
    subst h'
    exact ⟨rfl, fun hc => by simp at hc⟩

theorem completeCurrentBlock_spec {inner : Str → Except String (List RenderedElement)}
    {hooks : HookMap} {st : ParserState} :
    (completeCurrentBlock inner hooks st).2.remainingInput = none
      ∧ ((completeCurrentBlock inner hooks st).2.type = "complete" →
         (completeCurrentBlock inner hooks st).1 = initialState) := by
  unfold completeCurrentBlock
  split
  case h_1 r heq => exact tryComplete_spec heq
  case h_2 e heq => exact ⟨rfl, fun hc => by simp at hc⟩

theorem handleEmptyLine_spec {inner : Str → Except String (List RenderedElement)}
    {hooks : HookMap} {st : ParserState} :
    (handleEmptyLine inner hooks st).2.remainingInput = none := by
  unfold handleEmptyLine
  split
  · exact completeCurrentBlock_spec.1
  · rfl

/-- A `feedLine` result that asks to re-process its line always carries the
reset state (the block it closed is gone). -/
theorem feedLine_remaining_reset (inner : Str → Except String (List RenderedElement))
    (hooks : HookMap) :
    ∀ st l p, feedLine inner hooks st l = .ok p →
      p.2.remainingInput.isSome →
      p.1.blockType = none ∧ p.1.inCodeBlock = false := by
  intro st l p h hrem
  simp only [feedLine] at h
  split at h
  · -- in code block
    simp only [handleCodeBlockLine] at h
    split at h
    · split at h
      · rcases completeElement_spec h with ⟨_, _, h3⟩
        rw [h3] at hrem
        simp at hrem
      · injection h with h'
        subst h'
        simp at hrem
    · injection h with h'
      subst h'
      simp at hrem
  · split at h
    · -- blank line processor
      simp only [blankProcess] at h
      split at h
      · split at h
        case isTrue hty =>
          injection h with h'
          subst h'
          have hs := @completeCurrentBlock_spec inner hooks st
          rw [hs.2 hty]
          exact ⟨rfl, rfl⟩
        case isFalse =>
          injection h with h'
          subst h'
          rw [completeCurrentBlock_spec.1] at hrem
          simp at hrem
      · rcases completeElement_spec h with ⟨_, _, h3⟩
        rw [h3] at hrem
        simp at hrem
    · split at h
      · -- image processor
        simp only [imageProcess] at h
        split at h
        · injection h with h'
          subst h'
          simp at hrem
        · rcases completeElement_spec h with ⟨_, _, h3⟩
          rw [h3] at hrem
          simp at hrem
      · split at h
        · -- whitespace fallback
          injection h with h'
          subst h'
          rw [handleEmptyLine_spec] at hrem
          simp at hrem
        · split at h
          · -- block open
            split at h
            · injection h with h'
              subst h'
              simp at hrem
            · split at h
              case isTrue hty =>
                injection h with h'
                subst h'
                have hs := @completeCurrentBlock_spec inner hooks
                  ((continueCurrentBlock st l (classifyLine l).trimmed).2)
                rw [hs.2 hty]
                exact ⟨rfl, rfl⟩
              case isFalse =>
                injection h with h'
                subst h'
                rw [completeCurrentBlock_spec.1] at hrem
                simp at hrem
          · -- start-new-block path
            split at h
            · injection h with h'
              subst h'
              revert hrem
              simp only [startCodeBlock]
              split
              · simp
              · split <;> simp
            · split at h
              · simp only [handleHeading] at h
                split at h
                · injection h with h'
                  subst h'
                  simp at hrem
                · rcases completeElement_spec h with ⟨_, _, h3⟩
                  rw [h3] at hrem
                  simp at hrem
              · split at h
                · injection h with h'
                  subst h'
                  simp [handleBlockquote] at hrem
                · split at h
                  · injection h with h'
                    subst h'
                    simp [handleList] at hrem
                  · split at h
                    · injection h with h'
                      subst h'
                      simp [handleTable] at hrem
                    · injection h with h'
                      subst h'
                      simp [handleParagraph] at hrem

/-- From the reset state (no open block, not in a code block) `feedLine`
never asks to re-process its line. -/
theorem feedLine_fresh_no_remaining (inner : Str → Except String (List RenderedElement))
    (hooks : HookMap) :
    ∀ st l p, st.blockType = none → st.inCodeBlock = false →
      feedLine inner hooks st l = .ok p → p.2.remainingInput = none := by
  intro st l p hbt hic h
  simp only [feedLine] at h
  split at h
  case isTrue hc =>
    rw [hic] at hc
    simp at hc
  case isFalse =>
    split at h
    · simp only [blankProcess] at h
      split at h
      case isTrue hc => exact absurd hbt hc
      case isFalse => exact (completeElement_spec h).2.2
    · split at h
      · simp only [imageProcess] at h
        split at h
        · injection h with h'
          subst h'
          rfl
        · exact (completeElement_spec h).2.2
      · split at h
        · injection h with h'
          subst h'
          exact handleEmptyLine_spec
        · split at h
          case isTrue hc => exact absurd hbt hc
          case isFalse =>
            split at h
            · injection h with h'
              subst h'
              simp only [startCodeBlock]
              split
              · rfl
              · split <;> rfl
            · split at h
              · simp only [handleHeading] at h
                split at h
                · injection h with h'
                  subst h'
                  rfl
                · exact (completeElement_spec h).2.2
              · split at h
                · injection h with h'
                  subst h'
                  simp [handleBlockquote]
                · split at h
                  · injection h with h'
                    subst h'
                    simp [handleList]
                  · split at h
                    · injection h with h'
                      subst h'
                      simp [handleTable]
                    · injection h with h'
                      subst h'
                      simp [handleParagraph]

theorem completeElement_ok (el : RenderedElement) :
    ∃ p, completeElement defaultHooks el = .ok p := by
  have hd : defaultHooks = [("__theme__", themeHook)] := rfl
  have h1 : getHook defaultHooks "__theme__" = some themeHook := rfl
  simp only [completeElement, h1, themeHook, hd, getHook, List.lookup]
  cases ht : (el.type == "__theme__") <;> simp [ht, themeHook]

theorem feedLine_ok (inner : Str → Except String (List RenderedElement))
    (st : ParserState) (l : Str) :
    ∃ p, feedLine inner defaultHooks st l = .ok p := by
  simp only [feedLine, handleCodeBlockLine, blankProcess, imageProcess, handleHeading]
  repeat' first
  | exact completeElement_ok _
  | exact ⟨_, rfl⟩
  | split

theorem parseLoop_ok
    (feed : ParserState → Str → Except String (ParserState × ParseResult))
    (hok : ∀ st l, ∃ p, feed st l = .ok p)
    (hres : ∀ st l p, feed st l = .ok p → p.2.remainingInput.isSome = true →
       p.1.blockType = none ∧ p.1.inCodeBlock = false)
    (hfresh : ∀ st l p, st.blockType = none → st.inCodeBlock = false →
       feed st l = .ok p → p.2.remainingInput = none) :
    ∀ lines st fuel, 2 * lines.length + 1 ≤ fuel →
      ∃ q, parseLoop feed fuel st lines = .ok q := by
  intro lines
  induction lines with
  | nil =>
      intro st fuel hf
      match fuel, hf with
      | n + 1, _ => exact ⟨_, rfl⟩
  | cons l rest ih =>
      intro st fuel hf
      obtain ⟨p, hp⟩ := hok st l
      match fuel, hf with
      | n + 1, hf =>
        simp only [parseLoop, hp]
        cases hrem : p.2.remainingInput.isSome with
        | false =>
            simp only [hrem, Bool.false_eq_true, if_false]
            obtain ⟨q, hq⟩ := ih p.1 n (by simp only [List.length_cons] at hf; omega)
            rw [hq]
            exact ⟨_, rfl⟩
        | true =>
            have hr := hres st l p hp hrem
            obtain ⟨p2, hp2⟩ := hok p.1 l
            have hnone := hfresh p.1 l p2 hr.1 hr.2 hp2
            simp only [hrem, if_true]
            have hn : 2 * rest.length + 2 ≤ n := by
              simp only [List.length_cons] at hf
              omega
            match n, hn with
            | m + 1, hn =>
              simp only [parseLoop, hp2, hnone, Option.isSome_none,
                Bool.false_eq_true, if_false]
              obtain ⟨q, hq⟩ := ih p2.1 m (by omega)
              rw [hq]
              exact ⟨_, rfl⟩

theorem parseDocFuel_ok (n : Nat) (md : Str) :
    ∃ els, parseDocFuel defaultHooks (n + 1) md = .ok els := by
  simp only [parseDocFuel]
  obtain ⟨⟨st, toks⟩, hq⟩ :=
    parseLoop_ok (feedLine (parseDocFuel defaultHooks n) defaultHooks)
      (feedLine_ok _)
      (feedLine_remaining_reset _ _)
      (feedLine_fresh_no_remaining _ _)
      (splitLines md) initialState (2 * (splitLines md).length + 1) (le_refl _)
  rw [hq]
  exact ⟨_, rfl⟩

end MarkdownParser

/-! ## Verification infrastructure for the inline tokenizer -/

theorem strStarts_head_eq {s : Str} {a : Char} {r : Str}
    (h : strStarts s (a :: r) = true) : s.head? = some a := by
  cases s with
  | nil => simp [strStarts] at h
  | cons c cs =>
      simp only [strStarts, Bool.and_eq_true, beq_iff_eq] at h
      rw [h.1]
      rfl

theorem strStarts_second_eq {s : Str} {a b : Char} {r : Str}
    (h : strStarts s (a :: b :: r) = true) : s.get? 1 = some b := by
  cases s with
  | nil => simp [strStarts] at h
  | cons c cs =>
      simp only [strStarts, Bool.and_eq_true, beq_iff_eq] at h
      have h2 := strStarts_head_eq h.2
      cases cs with
      | nil => simp at h2
      | cons d ds =>
          simp only [List.head?] at h2
          simpa using h2

theorem head?_drop_eq (s : Str) (i : Nat) : (s.drop i).head? = s.get? i := by
  rw [← List.get?_zero, List.get?_drop, Nat.add_zero]

/-- On a string free of C2's special characters, one iteration of the inline
loop at an in-range position matches no pattern and only advances the index. -/
theorem piLoop_clean_step (em : Option EmojiMap) (tokens : List Token)
    (remaining : Str) (i : Nat) (hi : i < remaining.length)
    (hclean : ∀ c ∈ remaining, c ∉ c2Special) :
    piLoop em tokens remaining i = piLoop em tokens remaining (i + 1) := by
  have hgi : remaining.get? i = some (remaining.get ⟨i, hi⟩) := List.get?_eq_get hi
  have hgi2 : remaining[i]? = some (remaining.get ⟨i, hi⟩) := by
    simpa using hgi
  set c := remaining.get ⟨i, hi⟩ with hcdef
  have hcmem : c ∈ remaining := remaining.get_mem _ _
  have hne : ∀ a ∈ c2Special, a ≠ c := fun a ha heq => hclean c hcmem (heq ▸ ha)
  have hss : ∀ (a : Char) (r : Str), a ≠ c →
      strStarts (remaining.drop i) (a :: r) = false := by
    intro a r ha
    cases hs : strStarts (remaining.drop i) (a :: r) with
    | false => rfl
    | true =>
        have h1 := strStarts_head_eq hs
        rw [head?_drop_eq, hgi] at h1
        injection h1 with h1
        exact absurd h1.symm ha
  have e1 : strStarts (remaining.drop i) ['@', '!'] = false :=
    hss _ _ (hne _ (by decide))
  have e2 : strStarts (remaining.drop i) ['!', '['] = false := by
    cases hs : strStarts (remaining.drop i) ['!', '['] with
    | false => rfl
    | true =>
        have h1 := strStarts_second_eq hs
        rw [List.get?_drop] at h1
        exact absurd (hclean _ (List.get?_mem h1)) (by simp [c2Special])
  have e3 : strStarts (remaining.drop i) ['[', '^'] = false :=
    hss _ _ (hne _ (by decide))
  have e4 : strStarts (remaining.drop i) ['~', '~'] = false :=
    hss _ _ (hne _ (by decide))
  have e5 : strStarts (remaining.drop i) ['=', '='] = false :=
    hss _ _ (hne _ (by decide))
  have e6 : strStarts (remaining.drop i) ['*', '*'] = false :=
    hss _ _ (hne _ (by decide))
  have e7 : strStarts (remaining.drop i) ['_', '_'] = false :=
    hss _ _ (hne _ (by decide))
  have d1 : c ≠ '\\' := (hne _ (by decide)).symm
  have d2 : c ≠ ':' := (hne _ (by decide)).symm
  have d3 : c ≠ '[' := (hne _ (by decide)).symm
  have d4 : c ≠ '<' := (hne _ (by decide)).symm
  have d5 : c ≠ '`' := (hne _ (by decide)).symm
  have d6 : c ≠ '*' := (hne _ (by decide)).symm
  have d7 : c ≠ '_' := (hne _ (by decide)).symm
  have d8 : c ≠ '~' := (hne _ (by decide)).symm
  have d9 : c ≠ '^' := (hne _ (by decide)).symm
  cases em with
  | none =>
      rw [piLoop.eq_1, dif_pos hi]
      simp only [hgi, Option.some.injEq, e1, e2, e3, e4, d1, d2, d3, d4,
        Bool.false_eq_true, if_false, false_and, dite_false, decide_eq_true_eq]
      try simp [hgi, hgi2, d1, d2, d3, d4]
      rw [piLoopTail.eq_1, dif_pos hi]
      simp [hgi, hgi2, e5, e6, e7, d5, d6, d7, d8, d9]
  | some m =>
      rw [piLoop.eq_2, dif_pos hi]
      simp only [hgi, Option.some.injEq, e1, e2, e3, e4, d1, d2, d3, d4,
        Bool.false_eq_true, if_false, false_and, dite_false, decide_eq_true_eq]
      try simp [hgi, hgi2, d1, d2, d3, d4]
      rw [piLoopTail.eq_1, dif_pos hi]
      simp [hgi, hgi2, e5, e6, e7, d5, d6, d7, d8, d9]

/-- Iterating the clean step across the whole string: the loop falls off the
end and emits the single trailing text token. -/
theorem piLoop_clean_all (em : Option EmojiMap) (tokens : List Token) (s : Str)
    (hclean : ∀ c ∈ s, c ∉ c2Special) (hne : s ≠ []) :
    ∀ k i, i + k = s.length → piLoop em tokens s i = tokens ++ [textTok s] := by
  intro k
  induction k with
  | zero =>
      intro i h
      have hl : 0 < s.length := List.length_pos.mpr hne
      cases em with
      | none =>
          rw [piLoop.eq_1, dif_neg (by omega)]
          simp [hl]
      | some m =>
          rw [piLoop.eq_2, dif_neg (by omega)]
          simp [hl]
  | succ k ih =>
      intro i h
      rw [piLoop_clean_step em tokens s i (by omega) hclean]
      exact ih (i + 1) (by omega)

/-! ## Claim theorems -/

/-- C1: totality.  The inline tokenizer `parseInline` returns a token list
for every string (and every emoji lookup), and `MarkdownParser.parse` with
no externally supplied plugins or hooks returns an element list (never an
error) for every document. -/
theorem C1_totality :
    (∀ (s : Str) (em : Option EmojiMap), ∃ ts : List Token, parseInline s em = ts) ∧
    (∀ md : Str, ∃ els, MarkdownParser.parse [] md = .ok els) := by
  constructor
  · intro s em
    exact ⟨_, rfl⟩
  · intro md
    unfold MarkdownParser.parse
    have he : MarkdownParser.effectiveHooks [] = MarkdownParser.defaultHooks := rfl
    rw [he]
    exact MarkdownParser.parseDocFuel_ok (md.length + 1) md

/-- C2 counterexample: the empty string contains none of the special
characters, but `parseInline` returns `[]` for it, not a one-element list
with an empty text token (the output filter drops empty text tokens).  The
claim's "including the empty string" is therefore false. -/
theorem C2_counterexample_empty_string :
    (∀ c ∈ ([] : Str), c ∉ c2Special) ∧
    parseInline [] none = [] ∧
    (parseInline [] none).length = 0 ∧ [textTok ([] : Str)].length = 1 := by
  refine ⟨by simp, ?_, ?_, rfl⟩
  · simp [parseInline, piLoop]
  · simp [parseInline, piLoop]

/-- C2 (amended: the string must be nonempty; the empty string yields `[]`,
see the counterexample): for every nonempty string containing none of
`\ * _ ~ ^ = [ ] < : @` and no backtick, `parseInline` returns exactly the
one-element list with a text token carrying the whole string. -/
theorem C2_clean_single_text (s : Str) (em : Option EmojiMap)
    (hne : s ≠ []) (hclean : ∀ c ∈ s, c ∉ c2Special) :
    parseInline s em = [textTok s] := by
  have h := piLoop_clean_all em [] s hclean hne s.length 0 (by omega)
  simp only [parseInline, h]
  simp [keepToken, textTok, Token.content, hne]

/-- Witness for C2 at the concrete clean string "hi". -/
theorem C2_clean_single_text_witness :
    (['h', 'i'] : Str) ≠ [] ∧ (∀ c ∈ (['h', 'i'] : Str), c ∉ c2Special) ∧
    parseInline ['h', 'i'] none = [textTok ['h', 'i']] :=
  ⟨by decide, by decide, C2_clean_single_text ['h', 'i'] none (by decide) (by decide)⟩

/-- C10: the empty string yields the empty token list in both inline
tokenizer variants (part_005 and mmmv2): no empty text token is emitted. -/
theorem C10_empty_input :
    (∀ em, parseInline [] em = []) ∧ (∀ em, MmmV2.parseInline [] em = []) := by
  constructor
  · intro em
    cases em <;> simp [parseInline, piLoop]
  · intro em
    cases em <;> simp [MmmV2.parseInline, MmmV2.piLoop]

/-- C8: triple-delimiter disambiguation (code bug).  The `**` branch does
shift the bold closer when it is followed by one more `*`, so
`parseInline "***x***"` is one bold token containing an italic token
containing the text token "x".  But the `__` branch performs no such shift:
`parseInline "___x___"` is a bold token whose child is the literal text
token "_x", followed by a trailing text token "_" — not the claimed
bold→italic→text nesting, which the claim asserts for `___text___` too. -/
theorem C8_triple_delimiter :
    parseInline ['*', '*', '*', 'x', '*', '*', '*'] none =
      [Token.mk "bold" none
        (some [Token.mk "italic" none (some [textTok ['x']]) none]) none] ∧
    parseInline ['_', '_', '_', 'x', '_', '_', '_'] none =
      [Token.mk "bold" none (some [textTok ['_', 'x']]) none, textTok ['_']] ∧
    (parseInline ['_', '_', '_', 'x', '_', '_', '_'] none).length = 2 := by
  have h1 : parseInline ['*', '*', '*', 'x', '*', '*', '*'] none =
      [Token.mk "bold" none
        (some [Token.mk "italic" none (some [textTok ['x']]) none]) none] := by
    simp [parseInline, piLoop, piLoopTail, piPre, strStarts, idxOfFrom, idxOfAux,
      keepToken, textTok, cursorTok, Token.type, Token.content, Token.children,
      strSlice]
  have h2 : parseInline ['_', '_', '_', 'x', '_', '_', '_'] none =
      [Token.mk "bold" none (some [textTok ['_', 'x']]) none, textTok ['_']] := by
    simp [parseInline, piLoop, piLoopTail, piPre, strStarts, idxOfFrom, idxOfAux,
      keepToken, textTok, cursorTok, Token.type, Token.content, Token.children,
      strSlice]
  refine ⟨h1, h2, ?_⟩
  rw [h2]
  rfl

/-- C3 counterexample: with a fence opened by exactly 3 backticks, the line
"``a" — whose leading backtick run has length 2 < 3 — nevertheless closes
the fence: the close test only checks that the first character is the fence
character, that the whole trimmed line is at least as long as the fence, and
that the character at the fence-length index differs; it never verifies that
characters 1..fenceLength-1 are fence characters.  This refutes the claim's
"a shorter run of the fence character never closes a longer fence". -/
theorem C3_counterexample_short_run :
    ((jsTrim ['`', '`', 'a']).takeWhile (fun c => c == '`')).length = 2 ∧
    ∃ p, MarkdownParser.handleCodeBlockLine MarkdownParser.defaultHooks
        ⟨some "code_block", [[]], true, some '`', some 3, none, [], none, none⟩
        ['`', '`', 'a'] = .ok p ∧ p.2.type = "complete" := by
  constructor
  · decide
  · obtain ⟨p, hp⟩ := MarkdownParser.completeElement_ok
      (MarkdownParser.codeBlockElement
        ⟨some "code_block", [[]], true, some '`', some 3, none, [], none, none⟩)
    exact ⟨p, hp, (MarkdownParser.completeElement_spec hp).2.1⟩

/-- C3 (amended): while inside a code fence opened with character `f` and
run length `n`, a fed line closes the fence (the result is a completion)
iff the trimmed line's first character is `f`, the trimmed line has length
at least `n`, and the character at index `n` (if any) differs from `f`.
The characters between the first and index `n` are not inspected.  The
claim's other particulars hold: a 3-backtick fence is not closed by tildes
(first character differs) and not by a longer backtick run followed by
another backtick (the character at index `n` is still `f`). -/
theorem C3_fence_close_iff (st : ParserState) (line : Str) (f : Char) (n : Nat)
    (hf : st.codeBlockFence = some f) (hn : st.codeBlockFenceLength = some n) :
    (∃ p, MarkdownParser.handleCodeBlockLine MarkdownParser.defaultHooks st line
        = .ok p ∧ p.2.type = "complete") ↔
      (strStarts (jsTrim line) [f] = true ∧ n ≤ (jsTrim line).length
        ∧ (jsTrim line).get? n ≠ some f) := by
  rw [MarkdownParser.handleCodeBlockLine, hf, hn]
  split
  case h_2 oc onn hx => exact (hx f n rfl rfl).elim
  case h_1 oc onn f2 n2 heq1 heq2 =>
    injection heq1 with h1
    injection heq2 with h2
    subst h1
    subst h2
    constructor
    · rintro ⟨p, hp, hty⟩
      by_contra hc
      rw [if_neg hc] at hp
      injection hp with hp
      rw [← hp] at hty
      simp at hty
    · intro hc
      rw [if_pos hc]
      obtain ⟨p, hp⟩ := MarkdownParser.completeElement_ok
        (MarkdownParser.codeBlockElement st)
      exact ⟨p, hp, (MarkdownParser.completeElement_spec hp).2.1⟩

/-- Witness for C3 at a concrete in-fence state (backtick fence, length 3)
and the exact closing line "```". -/
theorem C3_fence_close_iff_witness :
    ((⟨some "code_block", [[]], true, some '`', some 3, none, [], none,
        none⟩ : ParserState).codeBlockFence = some '`') ∧
    ((⟨some "code_block", [[]], true, some '`', some 3, none, [], none,
        none⟩ : ParserState).codeBlockFenceLength = some 3) ∧
    ((∃ p, MarkdownParser.handleCodeBlockLine MarkdownParser.defaultHooks
        ⟨some "code_block", [[]], true, some '`', some 3, none, [], none, none⟩
        ['`', '`', '`'] = .ok p ∧ p.2.type = "complete") ↔
      (strStarts (jsTrim ['`', '`', '`']) ['`'] = true
        ∧ 3 ≤ (jsTrim ['`', '`', '`']).length
        ∧ (jsTrim ['`', '`', '`']).get? 3 ≠ some '`')) :=
  ⟨rfl, rfl, C3_fence_close_iff _ _ '`' 3 rfl rfl⟩

/-- C4: table validation and rollback.  A completing table block is emitted
as a table element only when the buffer has at least two lines and the
second satisfies the separator grammar; with fewer than two lines, or a
failing second line, the buffer is reinterpreted as a paragraph from its
first line (`completeParagraph`).  Concretely, `parse "| a |"` yields one
paragraph element, not a table. -/
theorem C4_table_validation :
    (∀ (hooks : MarkdownParser.HookMap) (st : ParserState), st.buffer.length < 2 →
      MarkdownParser.completeTable hooks st
        = MarkdownParser.completeParagraph hooks st) ∧
    (∀ (hooks : MarkdownParser.HookMap) (st : ParserState) (l1 l2 : Str) (r : List Str),
      st.buffer = l1 :: l2 :: r → MarkdownParser.isTableSeparator l2 = false →
      MarkdownParser.completeTable hooks st
        = MarkdownParser.completeParagraph hooks st) ∧
    (∀ (st : ParserState) (l1 l2 : Str) (r : List Str),
      st.buffer = l1 :: l2 :: r → MarkdownParser.isTableSeparator l2 = true →
      ∃ p el, MarkdownParser.completeTable MarkdownParser.defaultHooks st = .ok p
        ∧ p.2.element = some el ∧ el.type = "table") ∧
    (∃ el, MarkdownParser.parse [] ['|', ' ', 'a', ' ', '|'] = .ok [el]
      ∧ el.type = "p" ∧ el.children = none) := by
  refine ⟨?_, ?_, ?_, ?_⟩
  · intro hooks st hlen
    simp only [MarkdownParser.completeTable]
    split
    case h_1 l1 l2 r heq =>
      rw [heq] at hlen
      simp only [List.length_cons] at hlen
      omega
    case h_2 => rfl
  · intro hooks st l1 l2 r hbuf hsep
    simp only [MarkdownParser.completeTable]
    split
    case h_1 l1' l2' r' heq =>
      rw [hbuf] at heq
      injection heq with he1 heq
      injection heq with he2 heq
      rw [if_pos (by simp [← he2, hsep])]
    case h_2 => rfl
  · intro st l1 l2 r hbuf hsep
    simp only [MarkdownParser.completeTable, hbuf]
    rw [if_neg (by simp [hsep])]
    exact ⟨_, _, rfl, rfl, rfl⟩
  · exact ⟨⟨"p", MarkdownParser.parseInline ['|', ' ', 'a', ' ', '|'],
      none, none, some [[]]⟩, rfl, rfl, rfl⟩

/-- Witness for C4: a two-line buffer "|a|" / "|b|" (bad separator) rolls
back to a paragraph, and "|a|" / "|-|" (valid separator) yields a table. -/
theorem C4_table_validation_witness :
    (MarkdownParser.completeTable MarkdownParser.defaultHooks
        MarkdownParser.initialState
      = MarkdownParser.completeParagraph MarkdownParser.defaultHooks
        MarkdownParser.initialState) ∧
    (MarkdownParser.completeTable MarkdownParser.defaultHooks
        ⟨some "table", [['|', 'a', '|'], ['|', 'b', '|']], false, none, none,
          none, [], none, none⟩
      = MarkdownParser.completeParagraph MarkdownParser.defaultHooks
        ⟨some "table", [['|', 'a', '|'], ['|', 'b', '|']], false, none, none,
          none, [], none, none⟩) ∧
    (∃ p el, MarkdownParser.completeTable MarkdownParser.defaultHooks
        ⟨some "table", [['|', 'a', '|'], ['|', '-', '|']], false, none, none,
          none, [], none, none⟩ = .ok p
      ∧ p.2.element = some el ∧ el.type = "table") :=
  ⟨C4_table_validation.1 MarkdownParser.defaultHooks
      MarkdownParser.initialState (by decide),
    C4_table_validation.2.1 MarkdownParser.defaultHooks _ _ _ _ rfl (by decide),
    C4_table_validation.2.2.1 _ _ _ _ rfl (by decide)⟩

/-- C5 counterexample: feeding a blank line with no block open does not
"emit nothing" — it produces a `complete` result carrying an `empty_line`
element (which `parse` pushes into the output list). -/
theorem C5_counterexample_blank_emits_element :
    MarkdownParser.feedLine (fun _ => .ok []) MarkdownParser.defaultHooks
      MarkdownParser.initialState []
      = .ok (MarkdownParser.initialState,
          ⟨"complete", some ⟨"empty_line", [], none, none, some []⟩, none, none⟩) :=
  rfl

/-- C5 (amended): for a whitespace-only line and a state that is not inside
a code fence, the blank-line processor handles the line: an open block is
force-completed via `completeCurrentBlock` (with the blank line handed back
for re-processing when the completion succeeds), and with no block open the
line emits an `empty_line` element — not nothing.  (Inside a code fence the
blank line is buffered instead.) -/
theorem C5_blank_line_forces_completion
    (inner : Str → Except String (List RenderedElement))
    (hooks : MarkdownParser.HookMap) (st : ParserState) (l : Str)
    (hws : (jsTrim l).length = 0) (hic : st.inCodeBlock = false) :
    (MarkdownParser.feedLine inner hooks st l
      = MarkdownParser.blankProcess inner hooks (MarkdownParser.classifyLine l) st) ∧
    (st.blockType ≠ none →
      MarkdownParser.feedLine inner hooks st l
        = (if (MarkdownParser.completeCurrentBlock inner hooks st).2.type = "complete"
            then .ok ((MarkdownParser.completeCurrentBlock inner hooks st).1,
              { (MarkdownParser.completeCurrentBlock inner hooks st).2 with
                  remainingInput := some l })
            else .ok (MarkdownParser.completeCurrentBlock inner hooks st))) ∧
    (st.blockType = none →
      MarkdownParser.feedLine inner hooks st l
        = MarkdownParser.completeElement hooks ⟨"empty_line", [], none, none, none⟩) := by
  have h1 : MarkdownParser.feedLine inner hooks st l
      = MarkdownParser.blankProcess inner hooks (MarkdownParser.classifyLine l) st := by
    simp only [MarkdownParser.feedLine]
    rw [if_neg (by simp [hic])]
    rw [if_pos (by simp [MarkdownParser.blankCanHandle, MarkdownParser.classifyLine,
      hws, hic])]
  refine ⟨h1, ?_, ?_⟩
  · intro hbt
    rw [h1]
    simp only [MarkdownParser.blankProcess, MarkdownParser.classifyLine]
    rw [if_pos hbt]
  · intro hbt
    rw [h1]
    simp only [MarkdownParser.blankProcess]
    rw [if_neg (by simp [hbt])]

/-- Witness for C5 at a concrete open-paragraph state and the empty line. -/
theorem C5_blank_line_witness :
    (jsTrim ([] : Str)).length = 0 ∧
    ((⟨some "paragraph", [['h', 'i']], false, none, none, none, [], none,
        none⟩ : ParserState).inCodeBlock = false) ∧
    ((MarkdownParser.feedLine (fun _ => .ok []) MarkdownParser.defaultHooks
        ⟨some "paragraph", [['h', 'i']], false, none, none, none, [], none, none⟩ []
      = MarkdownParser.blankProcess (fun _ => .ok []) MarkdownParser.defaultHooks
        (MarkdownParser.classifyLine [])
        ⟨some "paragraph", [['h', 'i']], false, none, none, none, [], none, none⟩) ∧
     ((⟨some "paragraph", [['h', 'i']], false, none, none, none, [], none,
          none⟩ : ParserState).blockType ≠ none →
      MarkdownParser.feedLine (fun _ => .ok []) MarkdownParser.defaultHooks
        ⟨some "paragraph", [['h', 'i']], false, none, none, none, [], none, none⟩ []
        = (if (MarkdownParser.completeCurrentBlock (fun _ => .ok [])
              MarkdownParser.defaultHooks
              ⟨some "paragraph", [['h', 'i']], false, none, none, none, [], none,
                none⟩).2.type = "complete"
            then .ok ((MarkdownParser.completeCurrentBlock (fun _ => .ok [])
                MarkdownParser.defaultHooks
                ⟨some "paragraph", [['h', 'i']], false, none, none, none, [], none,
                  none⟩).1,
              { (MarkdownParser.completeCurrentBlock (fun _ => .ok [])
                  MarkdownParser.defaultHooks
                  ⟨some "paragraph", [['h', 'i']], false, none, none, none, [],
                    none, none⟩).2 with
                  remainingInput := some [] })
            else .ok (MarkdownParser.completeCurrentBlock (fun _ => .ok [])
                MarkdownParser.defaultHooks
                ⟨some "paragraph", [['h', 'i']], false, none, none, none, [], none,
                  none⟩))) ∧
     ((⟨some "paragraph", [['h', 'i']], false, none, none, none, [], none,
          none⟩ : ParserState).blockType = none →
      MarkdownParser.feedLine (fun _ => .ok []) MarkdownParser.defaultHooks
        ⟨some "paragraph", [['h', 'i']], false, none, none, none, [], none, none⟩ []
        = MarkdownParser.completeElement MarkdownParser.defaultHooks
            ⟨"empty_line", [], none, none, none⟩)) :=
  ⟨rfl, rfl, C5_blank_line_forces_completion (fun _ => .ok [])
    MarkdownParser.defaultHooks _ [] rfl rfl⟩

/-- C6 counterexample: a user hook that throws is *not* always caught — a
hook for `h1` that errors aborts the whole document parse, because heading
completion calls `completeElement` directly from `feedLine`, outside the
`completeCurrentBlock` try/catch. -/
theorem C6_counterexample_hook_aborts_parse :
    MarkdownParser.parse [("h1", fun _ => .error "boom")] ['#', ' ', 't']
      = .error "boom" :=
  rfl

/-- C6 (amended): callback errors are caught at the `completeCurrentBlock`
boundary only: when the completion body (`tryComplete`) errors, the state
is reset to its initial value and the error is reported through the
non-terminal `need_next_token` result carrying the error.  Completions
that `feedLine` runs outside this boundary (headings, blank-line elements,
images, code-fence closes) propagate the error and abort the parse, as the
counterexample shows. -/
theorem C6_errors_caught_at_completion_boundary
    (inner : Str → Except String (List RenderedElement))
    (hooks : MarkdownParser.HookMap) (st : ParserState) (e : String)
    (h : MarkdownParser.tryComplete inner hooks st = .error e) :
    MarkdownParser.completeCurrentBlock inner hooks st
      = (MarkdownParser.initialState, ⟨"need_next_token", none, none, some e⟩) := by
  unfold MarkdownParser.completeCurrentBlock
  rw [h]

/-- Witness for C6: a paragraph state with an empty buffer makes the
completion body error (`buffer[0]` is undefined), and the catch turns it
into the reset state and an error-carrying `need_next_token` result. -/
theorem C6_errors_caught_witness :
    MarkdownParser.tryComplete (fun _ => .ok []) MarkdownParser.defaultHooks
      ⟨some "paragraph", [], false, none, none, none, [], none, none⟩
      = .error "TypeError: undefined buffer line" ∧
    MarkdownParser.completeCurrentBlock (fun _ => .ok [])
      MarkdownParser.defaultHooks
      ⟨some "paragraph", [], false, none, none, none, [], none, none⟩
      = (MarkdownParser.initialState,
          ⟨"need_next_token", none, none, some "TypeError: undefined buffer line"⟩) :=
  ⟨rfl, C6_errors_caught_at_completion_boundary (fun _ => .ok [])
    MarkdownParser.defaultHooks _ _ rfl⟩

/-- With no registered hooks, the recursive hook application is the
identity. -/
theorem processTokenRecursively_no_hooks (tp : TokenParser) (h : tp.hooks = []) :
    ∀ n (t : Token), sizeOf t ≤ n → tp.processTokenRecursively t = t := by
  intro n
  induction n with
  | zero =>
      intro t ht
      cases t with
      | mk ty c ch md =>
          simp only [Token.mk.sizeOf_spec] at ht
          omega
  | succ n ih =>
      intro t ht
      cases t with
      | mk ty c ch md =>
          cases ch with
          | none =>
              simp only [TokenParser.processTokenRecursively]
              simp [TokenParser.applyHooks, h]
          | some cs =>
              simp only [TokenParser.processTokenRecursively]
              have hmap : cs.attach.map (fun x => tp.processTokenRecursively x.1)
                  = cs.attach.map (fun x => x.1) := by
                apply List.map_congr_left
                intro x _
                apply ih
                have hlt := List.sizeOf_lt_of_mem x.2
                simp only [Token.mk.sizeOf_spec, Option.some.sizeOf_spec] at ht
                omega
              rw [hmap]
              simp [List.attach_map_coe, TokenParser.applyHooks, h]

theorem map_ptr_id (tp : TokenParser) (h : tp.hooks = []) (l : List Token) :
    l.map tp.processTokenRecursively = l := by
  have hp : ∀ a ∈ l, tp.processTokenRecursively a = id a := fun a _ =>
    processTokenRecursively_no_hooks tp h (sizeOf a) a (le_refl _)
  rw [List.map_congr_left hp, List.map_id]

/-- C7 counterexample: a matched plugin whose handler returns the *empty*
list does not decline — `result !== null` is true for `[]`, so the empty
output is returned and neither the lower-priority plugin nor the built-in
dispatcher runs.  Only `null` (`none`) falls through. -/
theorem C7_counterexample_empty_not_declined :
    (TokenParser.create [⟨"a", 100, fun _ => true, fun _ _ => some []⟩,
        ⟨"b", 50, fun _ => true, fun _ _ => some [textTok ['x']]⟩] [] none).parse
      ['h', 'i'] = [] ∧
    (TokenParser.create [⟨"a", 100, fun _ => true, fun _ _ => none⟩,
        ⟨"b", 50, fun _ => true, fun _ _ => some [textTok ['x']]⟩] [] none).parse
      ['h', 'i'] = [textTok ['x']] := by
  constructor
  · rfl
  · have hscan : pluginScan (TokenParser.create
        [⟨"a", 100, fun _ => true, fun _ _ => none⟩,
          ⟨"b", 50, fun _ => true, fun _ _ => some [textTok ['x']]⟩] [] none)
        ['h', 'i']
        (TokenParser.create [⟨"a", 100, fun _ => true, fun _ _ => none⟩,
          ⟨"b", 50, fun _ => true, fun _ _ => some [textTok ['x']]⟩] []
          none).plugins = some [textTok ['x']] := rfl
    simp only [TokenParser.parse, hscan]
    exact map_ptr_id _ rfl _

/-- C7 (amended: a `null` handler result falls through, an *empty* one does
not): plugins are consulted in descending priority with ties in insertion
order; the first matching plugin's non-null output is used; a `null`
result falls through to the next matching plugin and ultimately to the
built-in dispatcher. -/
theorem C7_plugin_priority
    (c1 c2 : Str → Bool)
    (f1 f2 : Str → (Str → List Token) → Option (List Token)) (line : Str) :
    ((TokenParser.create [⟨"low", 50, c2, f2⟩, ⟨"high", 100, c1, f1⟩] []
        none).plugins
      = [⟨"high", 100, c1, f1⟩, ⟨"low", 50, c2, f2⟩]) ∧
    ((TokenParser.create [⟨"first", 100, c1, f1⟩, ⟨"second", 100, c2, f2⟩] []
        none).plugins
      = [⟨"first", 100, c1, f1⟩, ⟨"second", 100, c2, f2⟩]) ∧
    (∀ r, c1 line = true → f1 line (fun t => parseInline t none) = some r →
      (TokenParser.create [⟨"low", 50, c2, f2⟩, ⟨"high", 100, c1, f1⟩] []
        none).parse line = r) ∧
    (∀ r, c1 line = true → f1 line (fun t => parseInline t none) = none →
      c2 line = true → f2 line (fun t => parseInline t none) = some r →
      (TokenParser.create [⟨"low", 50, c2, f2⟩, ⟨"high", 100, c1, f1⟩] []
        none).parse line = r) ∧
    ((c1 line = true → f1 line (fun t => parseInline t none) = none) →
     (c2 line = true → f2 line (fun t => parseInline t none) = none) →
      (TokenParser.create [⟨"low", 50, c2, f2⟩, ⟨"high", 100, c1, f1⟩] []
        none).parse line = parseBuiltIn line none) := by
  have hplug : (TokenParser.create [⟨"low", 50, c2, f2⟩, ⟨"high", 100, c1, f1⟩]
      [] none).plugins = [⟨"high", 100, c1, f1⟩, ⟨"low", 50, c2, f2⟩] := rfl
  have hhk : (TokenParser.create [⟨"low", 50, c2, f2⟩, ⟨"high", 100, c1, f1⟩]
      [] none).hooks = [] := rfl
  have hem : (TokenParser.create [⟨"low", 50, c2, f2⟩, ⟨"high", 100, c1, f1⟩]
      [] none).emojiManager = none := rfl
  refine ⟨hplug, rfl, ?_, ?_, ?_⟩
  · intro r hc1 hf1
    simp only [TokenParser.parse, hplug, pluginScan, hem, hc1, if_true, hf1]
    exact map_ptr_id _ hhk r
  · intro r hc1 hf1 hc2 hf2
    simp only [TokenParser.parse, hplug, pluginScan, hem, hc1, hc2, if_true,
      hf1, hf2]
    exact map_ptr_id _ hhk r
  · intro hf1 hf2
    have hem2 : (TokenParser.create [⟨"low", 50, c2, f2⟩,
        ⟨"high", 100, c1, f1⟩] [] none).emojiManager = none := rfl
    have hone : pluginScan (TokenParser.create [⟨"low", 50, c2, f2⟩,
        ⟨"high", 100, c1, f1⟩] [] none) line
        [⟨"low", 50, c2, f2⟩] = none := by
      cases hc2 : c2 line with
      | false => simp [pluginScan, hem2, hc2]
      | true => simp [pluginScan, hem2, hc2, hf2 hc2]
    have hscan : pluginScan (TokenParser.create [⟨"low", 50, c2, f2⟩,
        ⟨"high", 100, c1, f1⟩] [] none) line
        [⟨"high", 100, c1, f1⟩, ⟨"low", 50, c2, f2⟩] = none := by
      cases hc1 : c1 line with
      | false =>
          have hstep : pluginScan (TokenParser.create [⟨"low", 50, c2, f2⟩,
              ⟨"high", 100, c1, f1⟩] [] none) line
              [⟨"high", 100, c1, f1⟩, ⟨"low", 50, c2, f2⟩]
              = pluginScan (TokenParser.create [⟨"low", 50, c2, f2⟩,
                ⟨"high", 100, c1, f1⟩] [] none) line [⟨"low", 50, c2, f2⟩] := by
            conv in pluginScan _ _ (_ :: _) => rw [pluginScan]
            simp [hc1]
          exact hstep.trans hone
      | true =>
          have hstep : pluginScan (TokenParser.create [⟨"low", 50, c2, f2⟩,
              ⟨"high", 100, c1, f1⟩] [] none) line
              [⟨"high", 100, c1, f1⟩, ⟨"low", 50, c2, f2⟩]
              = pluginScan (TokenParser.create [⟨"low", 50, c2, f2⟩,
                ⟨"high", 100, c1, f1⟩] [] none) line [⟨"low", 50, c2, f2⟩] := by
            conv in pluginScan _ _ (_ :: _) => rw [pluginScan]
            simp [hem2, hc1, hf1 hc1]
          exact hstep.trans hone
    simp only [TokenParser.parse, hplug, hscan]
    exact map_ptr_id _ hhk _

/-- Witness for C7: two always-matching plugins with priorities 100 and 50;
the priority-100 plugin's output wins despite being inserted second. -/
theorem C7_plugin_priority_witness :
    ((fun _ => true : Str → Bool) ['h', 'i'] = true) ∧
    ((fun _ _ => some [cursorTok] :
        Str → (Str → List Token) → Option (List Token)) ['h', 'i']
      (fun t => parseInline t none) = some [cursorTok]) ∧
    (TokenParser.create [⟨"low", 50, fun _ => true, fun _ _ => some [textTok ['x']]⟩,
        ⟨"high", 100, fun _ => true, fun _ _ => some [cursorTok]⟩] [] none).parse
      ['h', 'i'] = [cursorTok] :=
  ⟨rfl, rfl, (C7_plugin_priority (fun _ => true) (fun _ => true)
    (fun _ _ => some [cursorTok]) (fun _ _ => some [textTok ['x']])
    ['h', 'i']).2.2.1 [cursorTok] rfl rfl⟩

/-! ## C9 support: the cursor-run tokenizer and the tree invariant -/

theorem toksOk_iff {ts : List Token} :
    toksOk ts = true ↔ ∀ t ∈ ts, tokOk t = true := by
  induction ts with
  | nil => simp [toksOk]
  | cons t ts ih => simp [toksOk, ih]

theorem tokOk_textTok (s : Str) : tokOk (textTok s) = true := rfl

theorem tokOk_cursorTok : tokOk cursorTok = true := rfl

theorem pcocLoop_shape (rem : Str) : ∀ k i tokens,
    rem.length - i ≤ k →
    ∀ t ∈ pcocLoop rem tokens i,
      t ∈ tokens ∨ (∃ u, t = textTok u) ∨ t = cursorTok := by
  intro k
  induction k with
  | zero =>
      intro i tokens hk t ht
      rw [pcocLoop, dif_neg (by omega)] at ht
      exact .inl ht
  | succ k ih =>
      intro i tokens hk t ht
      by_cases hlt : i < rem.length
      · rw [pcocLoop, dif_pos hlt] at ht
        split at ht
        next =>
          rcases List.mem_append.mp ht with h | h
          · exact .inl h
          · rw [if_pos hlt] at h
            simp only [List.mem_singleton] at h
            exact .inr (.inl ⟨_, h⟩)
        next ci hidx =>
          have hge : i ≤ ci := idxOfFrom_ge (by simp) hidx
          rcases ih (ci + 2) _ (by omega) t ht with h | h | h
          · rcases List.mem_append.mp h with h2 | h2
            · rcases List.mem_append.mp h2 with h3 | h3
              · exact .inl h3
              · right; left
                by_cases hci : ci > i
                · rw [if_pos hci] at h3
                  simp only [List.mem_singleton] at h3
                  exact ⟨_, h3⟩
                · rw [if_neg hci] at h3
                  simp at h3
            · simp only [List.mem_singleton] at h2
              exact .inr (.inr h2)
          · exact .inr (.inl h)
          · exact .inr (.inr h)
      · rw [pcocLoop, dif_neg hlt] at ht
        exact .inl ht

theorem pcocLoop_sub (rem : Str) : ∀ k i tokens,
    rem.length - i ≤ k →
    ∀ t ∈ tokens, t ∈ pcocLoop rem tokens i := by
  intro k
  induction k with
  | zero =>
      intro i tokens hk t ht
      rw [pcocLoop, dif_neg (by omega)]
      exact ht
  | succ k ih =>
      intro i tokens hk t ht
      by_cases hlt : i < rem.length
      · rw [pcocLoop, dif_pos hlt]
        split
        next =>
          exact List.mem_append.mpr (.inl ht)
        next ci hidx =>
          have hge : i ≤ ci := idxOfFrom_ge (by simp) hidx
          exact ih (ci + 2) _ (by omega) t
            (List.mem_append.mpr (.inl (List.mem_append.mpr (.inl ht))))
      · rw [pcocLoop, dif_neg hlt]
        exact ht

theorem pcoc_shape {s : Str} :
    ∀ t ∈ parseCursorOnlyContent s, (∃ u, t = textTok u) ∨ t = cursorTok := by
  intro t ht
  have hm := (List.mem_filter.mp ht).1
  rcases pcocLoop_shape s s.length 0 [] (by omega) t hm with h | h | h
  · simp at h
  · exact .inl h
  · exact .inr h

theorem pcoc_cursor_mem {s : Str} (h : strIncludes s ['@', '!'] = true) :
    cursorTok ∈ parseCursorOnlyContent s := by
  unfold strIncludes at h
  cases hidx : idxOfFrom s ['@', '!'] 0 with
  | none => rw [hidx] at h; simp at h
  | some ci =>
      have hlen : ci < s.length := by
        have hs := idxOfAux_spec (by simp)
          (show idxOfAux ['@', '!'] (s.drop 0) 0 = some ci from hidx)
        simpa using hs.2
      apply List.mem_filter.mpr
      refine ⟨?_, rfl⟩
      rw [pcocLoop, dif_pos (by omega)]
      split
      next hnone => rw [hidx] at hnone; simp at hnone
      next ci2 hidx2 =>
        rw [hidx] at hidx2
        injection hidx2 with hci
        subst hci
        exact pcocLoop_sub s s.length _ _ (by omega) cursorTok
          (List.mem_append.mpr (.inr (by simp)))

theorem pcoc_tokOk {s : Str} : ∀ t ∈ parseCursorOnlyContent s, tokOk t = true := by
  intro t ht
  rcases pcoc_shape t ht with ⟨u, rfl⟩ | rfl
  · exact tokOk_textTok u
  · exact tokOk_cursorTok

theorem pcoc_run {s : Str} (h : strIncludes s ['@', '!'] = true) :
    cursorRunTokens (parseCursorOnlyContent s) = true := by
  unfold cursorRunTokens
  rw [Bool.and_eq_true]
  constructor
  · rw [List.all_eq_true]
    intro t ht
    rcases pcoc_shape t ht with ⟨u, rfl⟩ | rfl
    · rfl
    · rfl
  · rw [List.any_eq_true]
    exact ⟨cursorTok, pcoc_cursor_mem h, rfl⟩

theorem pcoc_toksOk {s : Str} : toksOk (parseCursorOnlyContent s) = true :=
  toksOk_iff.mpr pcoc_tokOk

theorem pcoc_not_empty {s : Str} (h : strIncludes s ['@', '!'] = true) :
    (parseCursorOnlyContent s).isEmpty = false := by
  cases hp : parseCursorOnlyContent s with
  | nil =>
      have := pcoc_cursor_mem h
      rw [hp] at this
      simp at this
  | cons a l => rfl

theorem tokOk_children_none (ty : String) (cs : List Token)
    (hty : contentOnlyType ty = false) (hcur : (ty == "cursor") = false)
    (hcs : ∀ t ∈ cs, tokOk t = true) :
    tokOk (Token.mk ty none (some cs) none) = true := by
  simp [tokOk, payloadOk, hty, hcur, toksOk_iff.mpr hcs]

theorem tokOk_children_md (ty : String) (cs : List Token)
    (es : List (String × MetaVal))
    (hty : contentOnlyType ty = false) (hcur : (ty == "cursor") = false)
    (hcs : ∀ t ∈ cs, tokOk t = true) (hes : mdOk es = true) :
    tokOk (Token.mk ty none (some cs) (some es)) = true := by
  simp [tokOk, payloadOk, hty, hcur, toksOk_iff.mpr hcs, hes]

theorem contentOnly_not_cursor {ty : String} (hty : contentOnlyType ty = true) :
    (ty == "cursor") = false := by
  unfold contentOnlyType at hty
  rcases Bool.or_eq_true_iff.mp hty with h | h
  · rcases Bool.or_eq_true_iff.mp h with h | h
    · rcases Bool.or_eq_true_iff.mp h with h | h
      · rcases Bool.or_eq_true_iff.mp h with h | h
        all_goals rw [beq_iff_eq] at h; subst h; rfl
      · rw [beq_iff_eq] at h; subst h; rfl
    · rw [beq_iff_eq] at h; subst h; rfl
  · rw [beq_iff_eq] at h; subst h; rfl

theorem tokOk_contentOnly_children (ty : String) (cs : List Token)
    (hty : contentOnlyType ty = true)
    (hrun : cursorRunTokens cs = true) (hcs : ∀ t ∈ cs, tokOk t = true) :
    tokOk (Token.mk ty none (some cs) none) = true := by
  simp [tokOk, payloadOk, hty, contentOnly_not_cursor hty, hrun,
    toksOk_iff.mpr hcs]

theorem tokOk_contentOnly_content (ty : String) (s : Str)
    (hty : contentOnlyType ty = true)
    (hinc : strIncludes s ['@', '!'] = false) :
    tokOk (Token.mk ty (some s) none none) = true := by
  simp [tokOk, payloadOk, hty, contentOnly_not_cursor hty, hinc]

theorem mdOk_title_hrefToks (ti : Str) (hts : List Token)
    (hrun : cursorRunTokens hts = true) (hok : toksOk hts = true) :
    mdOk [("title", MetaVal.str ti), ("hrefTokens", MetaVal.toks hts)] = true := by
  simp [mdOk, mvOk, hrun, hok]

theorem mdOk_title_href (ti href : Str)
    (hinc : strIncludes href ['@', '!'] = false) :
    mdOk [("title", MetaVal.str ti), ("href", MetaVal.str href)] = true := by
  simp [mdOk, mvOk, hinc]

theorem mdOk_hrefToks (hts : List Token)
    (hrun : cursorRunTokens hts = true) (hok : toksOk hts = true) :
    mdOk [("hrefTokens", MetaVal.toks hts)] = true := by
  simp [mdOk, mvOk, hrun, hok]

theorem mdOk_href (u : Str) (hinc : strIncludes u ['@', '!'] = false) :
    mdOk [("href", MetaVal.str u)] = true := by
  simp [mdOk, mvOk, hinc]

set_option maxHeartbeats 1000000 in
/-- The inline loop preserves the C9 invariant: every token it appends (and
every token inside nested `parseInline`/`parseCursorOnlyContent` results)
satisfies `tokOk`.  Outer induction on the remainder length covers the
pattern branches (which recurse on a strictly shorter remainder and parse
strictly shorter spans); inner induction on the lexicographic tail measure
covers the `piLoop`/`piLoopTail` handshake at a fixed remainder. -/
theorem piLoop_tokOk : ∀ (L : Nat) (rem : Str), rem.length ≤ L →
    ∀ (em : Option EmojiMap) (k i : Nat) (tokens : List Token),
    (∀ t ∈ tokens, tokOk t = true) →
    (2 * (rem.length - i) + 1 ≤ k →
      ∀ t ∈ piLoopTail em tokens rem i, tokOk t = true) ∧
    (2 * (rem.length - i) + 2 ≤ k →
      ∀ t ∈ piLoop em tokens rem i, tokOk t = true) := by
  intro L
  induction L using Nat.strong_induction_on with
  | _ L ihL =>
    intro rem hrem em k
    induction k using Nat.strong_induction_on with
    | _ k ihk =>
      intro i tokens htoks
      have hparse : ∀ (s' : Str) (em' : Option EmojiMap),
          s'.length < rem.length → ∀ t ∈ parseInline s' em', tokOk t = true := by
        intro s' em' hs t ht
        simp only [parseInline] at ht
        have hm := (List.mem_filter.mp ht).1
        exact ((ihL s'.length (lt_of_lt_of_le hs hrem) s' (le_refl _) em'
          (2 * s'.length + 2) 0 [] (by simp)).2 (by omega)) t hm
      have hdropP : ∀ (X : Nat), 1 ≤ X → 0 < rem.length →
          ∀ (tks : List Token), (∀ t ∈ tks, tokOk t = true) →
          ∀ t ∈ piLoop em tks (rem.drop X) 0, tokOk t = true := by
        intro X hX h0 tks htks
        refine ((ihL (rem.drop X).length ?_ (rem.drop X) (le_refl _) em
          (2 * (rem.drop X).length + 2) 0 tks htks).2 (by omega))
        simp only [List.length_drop]
        omega
      have hpre : ∀ t ∈ piPre rem i, tokOk t = true := by
        intro t ht
        simp only [piPre] at ht
        split at ht
        · simp only [List.mem_singleton] at ht
          subst ht
          exact tokOk_textTok _
        · simp at ht
      have happ : ∀ (tok : Token), tokOk tok = true →
          ∀ t ∈ tokens ++ piPre rem i ++ [tok],
            tokOk t = true := by
        intro tok htok t ht
        rcases List.mem_append.mp ht with h | h
        · rcases List.mem_append.mp h with h2 | h2
          · exact htoks t h2
          · exact hpre t h2
        · simp only [List.mem_singleton] at h
          subst h
          exact htok
      constructor
      · -- piLoopTail
        intro hk t ht
        by_cases hlt : i < rem.length
        · have h0 : 0 < rem.length := by omega
          have hslice : ∀ a b : Nat, 1 ≤ a → (strSlice rem a b).length < rem.length := by
            intro a b ha
            simp only [strSlice, List.length_take, List.length_drop]
            omega
          simp only [piLoopTail] at ht
          rw [dif_pos hlt] at ht
          split at ht
          -- highlight
          next e hm =>
            refine hdropP _ (by omega) h0 _ (happ _ ?_) t ht
            by_cases hinc : strIncludes (strSlice rem (i + 2) e) ['@', '!'] = true
            · rw [if_pos hinc] at *
              exact tokOk_contentOnly_children _ _ rfl (pcoc_run hinc) pcoc_tokOk
            · rw [if_neg hinc]
              exact tokOk_contentOnly_content _ _ rfl (by
                cases hv : strIncludes (strSlice rem (i + 2) e) ['@', '!']
                · rfl
                · exact absurd hv hinc)
          next =>
          split at ht
          -- bold **
          next e0 hm =>
            refine hdropP _ (by omega) h0 _ (happ _ ?_) t ht
            exact tokOk_children_none _ _ rfl rfl
              (hparse _ em (hslice _ _ (by omega)))
          next =>
          split at ht
          -- bold __
          next e hm =>
            refine hdropP _ (by omega) h0 _ (happ _ ?_) t ht
            exact tokOk_children_none _ _ rfl rfl
              (hparse _ em (hslice _ _ (by omega)))
          next =>
          split at ht
          -- inline code
          next e hm =>
            refine hdropP _ (by omega) h0 _ (happ _ ?_) t ht
            by_cases hinc : strIncludes (strSlice rem (i + 1) e) ['@', '!'] = true
            · rw [if_pos hinc]
              exact tokOk_contentOnly_children _ _ rfl (pcoc_run hinc) pcoc_tokOk
            · rw [if_neg hinc]
              exact tokOk_contentOnly_content _ _ rfl (by
                cases hv : strIncludes (strSlice rem (i + 1) e) ['@', '!']
                · rfl
                · exact absurd hv hinc)
          next =>
          split at ht
          -- italic *
          next e hm =>
            refine hdropP _ (by omega) h0 _ (happ _ ?_) t ht
            exact tokOk_children_none _ _ rfl rfl
              (hparse _ em (hslice _ _ (by omega)))
          next =>
          split at ht
          -- italic _
          next e hm =>
            refine hdropP _ (by omega) h0 _ (happ _ ?_) t ht
            exact tokOk_children_none _ _ rfl rfl
              (hparse _ em (hslice _ _ (by omega)))
          next =>
          split at ht
          -- subscript
          next e hm =>
            refine hdropP _ (by omega) h0 _ (happ _ ?_) t ht
            by_cases hinc : strIncludes (strSlice rem (i + 1) e) ['@', '!'] = true
            · rw [if_pos hinc]
              exact tokOk_contentOnly_children _ _ rfl (pcoc_run hinc) pcoc_tokOk
            · rw [if_neg hinc]
              exact tokOk_contentOnly_content _ _ rfl (by
                cases hv : strIncludes (strSlice rem (i + 1) e) ['@', '!']
                · rfl
                · exact absurd hv hinc)
          next =>
          split at ht
          -- superscript
          next e hm =>
            refine hdropP _ (by omega) h0 _ (happ _ ?_) t ht
            by_cases hinc : strIncludes (strSlice rem (i + 1) e) ['@', '!'] = true
            · rw [if_pos hinc]
              exact tokOk_contentOnly_children _ _ rfl (pcoc_run hinc) pcoc_tokOk
            · rw [if_neg hinc]
              exact tokOk_contentOnly_content _ _ rfl (by
                cases hv : strIncludes (strSlice rem (i + 1) e) ['@', '!']
                · rfl
                · exact absurd hv hinc)
          next =>
          -- fallthrough: i + 1
          exact ((ihk (k - 1) (by omega) (i + 1) tokens htoks).2 (by omega)) t ht
        · rw [piLoopTail.eq_1, dif_neg hlt] at ht
          rcases List.mem_append.mp ht with h | h
          · exact htoks t h
          · split at h
            · simp only [List.mem_singleton] at h
              subst h
              exact tokOk_textTok _
            · simp at h
      · -- piLoop
        intro hk t ht
        by_cases hlt : i < rem.length
        · have h0 : 0 < rem.length := by omega
          have htake : ∀ (d x : Nat), 1 ≤ d →
              ((((rem.drop i).drop d).take x)).length < rem.length := by
            intro d x hd
            simp only [List.length_take, List.length_drop]
            omega
          cases em with
          | none =>
            rw [piLoop.eq_1] at ht
            rw [dif_pos hlt] at ht
            split at ht
            -- escape
            next hesc =>
              refine hdropP _ (by omega) h0 _ (happ _ (tokOk_textTok _)) t ht
            next hesc =>
            split at ht
            -- cursor
            next hcur =>
              split at ht
              · rw [List.drop_drop] at ht
                refine hdropP _ (by omega) h0 _ ?_ t ht
                intro t2 ht2
                rcases List.mem_append.mp ht2 with h | h
                · rcases List.mem_append.mp h with h2 | h2
                  · exact htoks _ h2
                  · exact hpre _ h2
                · simp only [List.mem_cons, List.mem_singleton,
                    List.not_mem_nil] at h
                  rcases h with rfl | rfl | h
                  · exact tokOk_cursorTok
                  · exact tokOk_textTok _
                  · exact h.elim
              · refine hdropP _ (by omega) h0 _ (happ _ tokOk_cursorTok) t ht
            next hcur =>
            split at ht
            -- image
            next k2 src title pc hm =>
              refine hdropP _ (by omega) h0 _ (happ _ ?_) t ht
              refine tokOk_children_md _ _ _ rfl rfl ?_ rfl
              intro t2 ht2
              split at ht2
              · exact hparse _ none (htake 2 _ (by omega)) t2 ht2
              · simp at ht2
            next =>
            split at ht
            -- footnote reference
            next id j hm =>
              refine hdropP _ (by omega) h0 _ (happ _ ?_) t ht
              rfl
            next =>
            split at ht
            -- link
            next k2 href title pc hm =>
              refine hdropP _ (by omega) h0 _ (happ _ ?_) t ht
              by_cases hinc : strIncludes href ['@', '!'] = true
              · rw [if_pos hinc, pcoc_not_empty hinc]
                simp only [Bool.not_false, if_true]
                refine tokOk_children_md _ _ _ rfl rfl ?_
                  (mdOk_title_hrefToks _ _ (pcoc_run hinc) pcoc_toksOk)
                intro t2 ht2
                split at ht2
                · exact hparse _ none (htake 1 _ (by omega)) t2 ht2
                · simp at ht2
              · have hv : strIncludes href ['@', '!'] = false := by
                  cases hv2 : strIncludes href ['@', '!']
                  · rfl
                  · exact absurd hv2 hinc
                rw [if_neg hinc]
                simp only [List.isEmpty_nil, Bool.not_true, Bool.false_eq_true,
                  if_false]
                refine tokOk_children_md _ _ _ rfl rfl ?_
                  (mdOk_title_href _ _ hv)
                intro t2 ht2
                split at ht2
                · exact hparse _ none (htake 1 _ (by omega)) t2 ht2
                · simp at ht2
            next =>
            split at ht
            -- image card <img ...>
            next w n src c hm =>
              refine hdropP _ (by omega) h0 _ (happ _ ?_) t ht
              exact tokOk_children_md _ _ _ rfl rfl
                (hparse _ none (htake (16 + w) _ (by omega))) rfl
            next =>
            split at ht
            -- autolink
            next url n hm =>
              refine hdropP _ (by omega) h0 _ (happ _ ?_) t ht
              by_cases hinc : strIncludes url ['@', '!'] = true
              · rw [if_pos hinc, pcoc_not_empty hinc]
                simp only [Bool.not_false, if_true]
                exact tokOk_children_md _ _ _ rfl rfl pcoc_tokOk
                  (mdOk_hrefToks _ (pcoc_run hinc) pcoc_toksOk)
              · have hv : strIncludes url ['@', '!'] = false := by
                  cases hv2 : strIncludes url ['@', '!']
                  · rfl
                  · exact absurd hv2 hinc
                rw [if_neg hinc]
                simp only [List.isEmpty_nil, Bool.not_true, Bool.false_eq_true,
                  if_false]
                refine tokOk_children_md _ _ _ rfl rfl ?_ (mdOk_href _ hv)
                intro t2 ht2
                simp only [List.mem_singleton] at ht2
                subst ht2
                exact tokOk_textTok _
            next =>
            split at ht
            -- strikethrough
            next e hm =>
              split at ht
              · refine hdropP _ (by omega) h0 _ (happ _ ?_) t ht
                by_cases hinc : strIncludes (strSlice rem (i + 2) e) ['@', '!'] = true
                · rw [if_pos hinc]
                  exact tokOk_contentOnly_children _ _ rfl (pcoc_run hinc) pcoc_tokOk
                · rw [if_neg hinc]
                  refine tokOk_contentOnly_content _ _ rfl ?_
                  cases hv : strIncludes (strSlice rem (i + 2) e) ['@', '!']
                  · rfl
                  · exact absurd hv hinc
              · split at ht
                · refine hdropP _ (by omega) h0 _ (happ _ ?_) t ht
                  exact tokOk_contentOnly_content _ _ rfl rfl
                · exact ((ihk (k - 1) (by omega) i tokens htoks).1 (by omega)) t ht
            next =>
              exact ((ihk (k - 1) (by omega) i tokens htoks).1 (by omega)) t ht

          | some m =>
            rw [piLoop.eq_2] at ht
            rw [dif_pos hlt] at ht
            split at ht
            -- escape
            next hesc =>
              refine hdropP _ (by omega) h0 _ (happ _ (tokOk_textTok _)) t ht
            next hesc =>
            split at ht
            -- emoji
            next tokp nxt hm =>
              have hok : tokOk tokp = true := by
                split at hm
                · split at hm
                  · simp only [strSlice] at hm
                    split at hm
                    · split at hm
                      · split at hm
                        · injection hm with hm2
                          rw [Prod.mk.injEq] at hm2
                          rw [← hm2.1]
                          rfl
                        · exact absurd hm (by simp)
                      · exact absurd hm (by simp)
                    · exact absurd hm (by simp)
                  · exact absurd hm (by simp)
                · exact absurd hm (by simp)
              exact hdropP _ (by omega) h0 _ (happ _ hok) t ht
            next hm =>
            split at ht
            -- cursor
            next hcur =>
              split at ht
              · rw [List.drop_drop] at ht
                refine hdropP _ (by omega) h0 _ ?_ t ht
                intro t2 ht2
                rcases List.mem_append.mp ht2 with h | h
                · rcases List.mem_append.mp h with h2 | h2
                  · exact htoks _ h2
                  · exact hpre _ h2
                · simp only [List.mem_cons, List.mem_singleton,
                    List.not_mem_nil] at h
                  rcases h with rfl | rfl | h
                  · exact tokOk_cursorTok
                  · exact tokOk_textTok _
                  · exact h.elim
              · refine hdropP _ (by omega) h0 _ (happ _ tokOk_cursorTok) t ht
            next hcur =>
            split at ht
            -- image
            next k2 src title pc hm =>
              refine hdropP _ (by omega) h0 _ (happ _ ?_) t ht
              refine tokOk_children_md _ _ _ rfl rfl ?_ rfl
              intro t2 ht2
              split at ht2
              · exact hparse _ (some m) (htake 2 _ (by omega)) t2 ht2
              · simp at ht2
            next =>
            split at ht
            -- footnote reference
            next id j hm =>
              refine hdropP _ (by omega) h0 _ (happ _ ?_) t ht
              rfl
            next =>
            split at ht
            -- link
            next k2 href title pc hm =>
              refine hdropP _ (by omega) h0 _ (happ _ ?_) t ht
              by_cases hinc : strIncludes href ['@', '!'] = true
              · rw [if_pos hinc, pcoc_not_empty hinc]
                simp only [Bool.not_false, if_true]
                refine tokOk_children_md _ _ _ rfl rfl ?_
                  (mdOk_title_hrefToks _ _ (pcoc_run hinc) pcoc_toksOk)
                intro t2 ht2
                split at ht2
                · exact hparse _ (some m) (htake 1 _ (by omega)) t2 ht2
                · simp at ht2
              · have hv : strIncludes href ['@', '!'] = false := by
                  cases hv2 : strIncludes href ['@', '!']
                  · rfl
                  · exact absurd hv2 hinc
                rw [if_neg hinc]
                simp only [List.isEmpty_nil, Bool.not_true, Bool.false_eq_true,
                  if_false]
                refine tokOk_children_md _ _ _ rfl rfl ?_
                  (mdOk_title_href _ _ hv)
                intro t2 ht2
                split at ht2
                · exact hparse _ (some m) (htake 1 _ (by omega)) t2 ht2
                · simp at ht2
            next =>
            split at ht
            -- image card <img ...>
            next w n src c hm =>
              refine hdropP _ (by omega) h0 _ (happ _ ?_) t ht
              exact tokOk_children_md _ _ _ rfl rfl
                (hparse _ (some m) (htake (16 + w) _ (by omega))) rfl
            next =>
            split at ht
            -- autolink
            next url n hm =>
              refine hdropP _ (by omega) h0 _ (happ _ ?_) t ht
              by_cases hinc : strIncludes url ['@', '!'] = true
              · rw [if_pos hinc, pcoc_not_empty hinc]
                simp only [Bool.not_false, if_true]
                exact tokOk_children_md _ _ _ rfl rfl pcoc_tokOk
                  (mdOk_hrefToks _ (pcoc_run hinc) pcoc_toksOk)
              · have hv : strIncludes url ['@', '!'] = false := by
                  cases hv2 : strIncludes url ['@', '!']
                  · rfl
                  · exact absurd hv2 hinc
                rw [if_neg hinc]
                simp only [List.isEmpty_nil, Bool.not_true, Bool.false_eq_true,
                  if_false]
                refine tokOk_children_md _ _ _ rfl rfl ?_ (mdOk_href _ hv)
                intro t2 ht2
                simp only [List.mem_singleton] at ht2
                subst ht2
                exact tokOk_textTok _
            next =>
            split at ht
            -- strikethrough
            next e hm =>
              split at ht
              · refine hdropP _ (by omega) h0 _ (happ _ ?_) t ht
                by_cases hinc : strIncludes (strSlice rem (i + 2) e) ['@', '!'] = true
                · rw [if_pos hinc]
                  exact tokOk_contentOnly_children _ _ rfl (pcoc_run hinc) pcoc_tokOk
                · rw [if_neg hinc]
                  refine tokOk_contentOnly_content _ _ rfl ?_
                  cases hv : strIncludes (strSlice rem (i + 2) e) ['@', '!']
                  · rfl
                  · exact absurd hv hinc
              · split at ht
                · refine hdropP _ (by omega) h0 _ (happ _ ?_) t ht
                  exact tokOk_contentOnly_content _ _ rfl rfl
                · exact ((ihk (k - 1) (by omega) i tokens htoks).1 (by omega)) t ht
            next =>
              exact ((ihk (k - 1) (by omega) i tokens htoks).1 (by omega)) t ht
        · cases em with
          | none =>
              rw [piLoop.eq_1] at ht
              rw [dif_neg hlt] at ht
              rcases List.mem_append.mp ht with h | h
              · exact htoks t h
              · split at h
                · simp only [List.mem_singleton] at h
                  subst h
                  exact tokOk_textTok _
                · simp at h
          | some m =>
              rw [piLoop.eq_2] at ht
              rw [dif_neg hlt] at ht
              rcases List.mem_append.mp ht with h | h
              · exact htoks t h
              · split at h
                · simp only [List.mem_singleton] at h
                  subst h
                  exact tokOk_textTok _
                · simp at h

/-- C9: payload invariant.  Every token in every tree returned by
`parseInline` satisfies `tokOk`: never both content and children; a cursor
token carries neither payload; the normally content-only types
(inline code, strikethrough, highlight, subscript, superscript — and the
link target, held in `hrefTokens` metadata) carry a cursor run (text and
cursor fragments with at least one cursor) as children exactly when the
underlying span contains the `@!` marker, and marker-free plain content
otherwise. -/
theorem C9_payload_invariant (s : Str) (em : Option EmojiMap) :
    ∀ t ∈ parseInline s em, tokOk t = true := by
  intro t ht
  simp only [parseInline] at ht
  exact (piLoop_tokOk s.length s (le_refl _) em (2 * s.length + 2) 0 []
    (by simp)).2 (by omega) t (List.mem_filter.mp ht).1

/-- Witness for C9 at the concrete input "a". -/
theorem C9_payload_invariant_witness :
    textTok ['a'] ∈ parseInline ['a'] none ∧ tokOk (textTok ['a']) = true :=
  ⟨by simp [parseInline, piLoop, piLoopTail, piPre, strStarts, idxOfFrom,
      idxOfAux, keepToken, textTok, Token.content, Token.children, Token.type],
    C9_payload_invariant ['a'] none (textTok ['a'])
      (by simp [parseInline, piLoop, piLoopTail, piPre, strStarts, idxOfFrom,
        idxOfAux, keepToken, textTok, Token.content, Token.children,
        Token.type])⟩
